import Mathlib

/-!
Verification development for the `tcp_chat` repository: the length-prefixed
framing layer (`src/tcp_conn.rs`), the wire codec for the `Message` enum
(`src/packet.rs`, serialized with `serde_json`), and the room server's
dispatcher state machine (`src/server.rs`).

Modelling conventions:
* Rust `String` values are modelled as `List Nat` of their Unicode scalar
  values (a Rust string is exactly a sequence of non-surrogate scalars).
* Byte buffers (`Vec<u8>`) are `List Nat` with elements below 256.
* `u64` / `usize` are `Nat`; the `2 ^ 64` bound is carried as a hypothesis
  where the code relies on it.
* `serde_json` and `std::str::from_utf8` are library code, not part of the
  repository; they are modelled faithfully to their documented behaviour:
  the derived externally-tagged JSON encoding of the enum, compact
  serialization with the standard escape table, and UTF-8 validation.
  The parser side models the canonical textual form the serializer emits
  (it does not accept insignificant whitespace, which never occurs in
  frames produced by this program).
-/

namespace TcpChat

/-! ## Unicode scalars and UTF-8 (model of `String::into_bytes` / `std::str::from_utf8`) -/

/-- Valid Unicode scalar value, exactly the values a Rust `char` can hold. -/
def isScalar (c : Nat) : Bool := c < 0xD800 || (0xE000 ≤ c && c < 0x110000)

/-- UTF-8 encoding of one Unicode scalar value (1 to 4 bytes). -/
def utf8EncodeChar (c : Nat) : List Nat :=
  if c < 0x80 then [c]
  else if c < 0x800 then [0xC0 + c / 0x40, 0x80 + c % 0x40]
  else if c < 0x10000 then
    [0xE0 + c / 0x1000, 0x80 + c / 0x40 % 0x40, 0x80 + c % 0x40]
  else
    [0xF0 + c / 0x40000, 0x80 + c / 0x1000 % 0x40, 0x80 + c / 0x40 % 0x40, 0x80 + c % 0x40]

/-- UTF-8 encoding of a scalar sequence: model of `String::into_bytes`. -/
def utf8Encode (s : List Nat) : List Nat := s.flatMap utf8EncodeChar

/-- Read one UTF-8 continuation byte: its 6 payload bits and the rest. -/
def getCont : List Nat → Option (Nat × List Nat)
  | [] => none
  | b :: rest => if 0x80 ≤ b ∧ b < 0xC0 then some (b - 0x80, rest) else none

/-- Decode one scalar from lead byte `b0` and the following bytes: model of
one step of `std::str::from_utf8` validation (lead ranges, continuation
ranges and overlong forms are checked; surrogate rejection is omitted, it is
never exercised here).  Returns the scalar and the unconsumed bytes. -/
def utf8DecodeOne (b0 : Nat) (rest : List Nat) : Option (Nat × List Nat) :=
  if b0 < 0x80 then some (b0, rest)
  else if b0 < 0xC2 then none
  else if b0 < 0xE0 then
    match getCont rest with
    | some (v1, r1) => some ((b0 - 0xC0) * 0x40 + v1, r1)
    | none => none
  else if b0 < 0xF0 then
    match getCont rest with
    | some (v1, r1) =>
      match getCont r1 with
      | some (v2, r2) =>
        let c := (b0 - 0xE0) * 0x1000 + v1 * 0x40 + v2
        if 0x800 ≤ c then some (c, r2) else none
      | none => none
    | none => none
  else if b0 < 0xF5 then
    match getCont rest with
    | some (v1, r1) =>
      match getCont r1 with
      | some (v2, r2) =>
        match getCont r2 with
        | some (v3, r3) =>
          let c := (b0 - 0xF0) * 0x40000 + v1 * 0x1000 + v2 * 0x40 + v3
          if 0x10000 ≤ c ∧ c < 0x110000 then some (c, r3) else none
        | none => none
      | none => none
    | none => none
  else none

/-- Decoding loop over a whole byte sequence; the fuel only bounds the number
of decoded scalars and any fuel at least the byte count works (each scalar
consumes at least one byte). -/
def utf8DecodeAux : Nat → List Nat → Option (List Nat)
  | _, [] => some []
  | 0, _ :: _ => none
  | fuel + 1, b0 :: rest =>
    match utf8DecodeOne b0 rest with
    | some (c, r) => (utf8DecodeAux fuel r).map (c :: ·)
    | none => none

/-- UTF-8 decoding and validation of a whole byte sequence: model of
`std::str::from_utf8`. -/
def utf8Decode (bs : List Nat) : Option (List Nat) := utf8DecodeAux bs.length bs

/-! ## The application message type (`packet.rs`, enum `Message`) -/

/-- Translation of `enum Message` from `src/packet.rs`.  String payloads are
scalar sequences, `u64` payloads are `Nat`. -/
inductive Message where
  | ClientText (text : List Nat)
  | ClientHello (name : List Nat)
  | ClientGoodbye
  | ClientRename (newName : List Nat)
  | ClientKick (who : Nat)
  | ClientRequestIDs
  | ServerText (senderName text : List Nat)
  | ServerShutdown
  | ServerNotifyKick
  | ServerResponseIDs (ids : List (List Nat × Nat))
deriving DecidableEq

/-- Well-formedness of a `Message` value as produced by the Rust program:
every string is a sequence of valid Unicode scalars and every id fits `u64`. -/
def strOk (s : List Nat) : Bool := s.all isScalar

/-- Well-formedness of a whole message value (see `strOk`). -/
def Message.wf : Message → Bool
  | .ClientText t => strOk t
  | .ClientHello n => strOk n
  | .ClientGoodbye => true
  | .ClientRename n => strOk n
  | .ClientKick who => who < 2 ^ 64
  | .ClientRequestIDs => true
  | .ServerText a b => strOk a && strOk b
  | .ServerShutdown => true
  | .ServerNotifyKick => true
  | .ServerResponseIDs ps => ps.all (fun p => strOk p.1 && (p.2 < 2 ^ 64 : Bool))

/-! ## Model of `serde_json` serialization (compact form, externally tagged enum) -/

/-- Scalar values of a Lean string literal; used for the fixed ASCII pieces of
the JSON encoding (variant names, server-composed notices). -/
def lit (s : String) : List Nat := s.data.map Char.toNat

/-- Escape table of the `serde_json` string serializer: quote and backslash are
escaped, control characters use the short forms `\b \t \n \f \r` or a
`\u00XX` sequence with lowercase hex digits; everything else is verbatim. -/
def escapeChar (c : Nat) : List Nat :=
  if c = 0x22 then [0x5C, 0x22]
  else if c = 0x5C then [0x5C, 0x5C]
  else if c = 0x08 then [0x5C, 0x62]
  else if c = 0x09 then [0x5C, 0x74]
  else if c = 0x0A then [0x5C, 0x6E]
  else if c = 0x0C then [0x5C, 0x66]
  else if c = 0x0D then [0x5C, 0x72]
  else if c < 0x20 then
    [0x5C, 0x75, 0x30, 0x30, hexDigit (c / 16), hexDigit (c % 16)]
  else [c]
where
  /-- Lowercase hexadecimal digit scalar. -/
  hexDigit (d : Nat) : Nat := if d < 10 then 0x30 + d else 0x57 + d

/-- JSON string serialization: opening quote, escaped content, closing quote. -/
def serStr (s : List Nat) : List Nat := 0x22 :: s.flatMap escapeChar ++ [0x22]

/-- Accumulator worker for decimal printing; the fuel argument only bounds the
recursion depth (any fuel at least the printed number works). -/
def natToDecAux : Nat → Nat → List Nat → List Nat
  | 0, _, acc => acc
  | fuel + 1, n, acc =>
    if n = 0 then acc else natToDecAux fuel (n / 10) ((0x30 + n % 10) :: acc)

/-- Decimal digit scalars of a natural number, most significant first; model
of the `serde_json` / `Display` printing of a `u64`. -/
def natToDec (n : Nat) : List Nat :=
  if n = 0 then [0x30] else natToDecAux n n []

/-- Serialization of one `(String, u64)` roster pair: a two-element array. -/
def serPair (p : List Nat × Nat) : List Nat :=
  0x5B :: serStr p.1 ++ 0x2C :: natToDec p.2 ++ [0x5D]

/-- Serialization of a nonempty pair list body: comma-separated, closed by `]`. -/
def serPairsTail : List (List Nat × Nat) → List Nat
  | [] => [0x5D]
  | [p] => serPair p ++ [0x5D]
  | p :: ps => serPair p ++ 0x2C :: serPairsTail ps

/-- Serialization of a `Vec<(String, u64)>` as a JSON array. -/
def serRespList (ps : List (List Nat × Nat)) : List Nat :=
  match ps with
  | [] => [0x5B, 0x5D]
  | _ => 0x5B :: serPairsTail ps

/-- Externally tagged newtype-variant object `{"key":value}`. -/
def keyVal (k : String) (v : List Nat) : List Nat :=
  0x7B :: serStr (lit k) ++ 0x3A :: v ++ [0x7D]

/-- Scalar sequence of the JSON text `serde_json::to_string` produces for a
`Message` value: unit variants print as bare strings, payload variants as
single-key objects (the derived externally tagged representation). -/
def encodeMessage : Message → List Nat
  | .ClientText t => keyVal "ClientText" (serStr t)
  | .ClientHello n => keyVal "ClientHello" (serStr n)
  | .ClientGoodbye => serStr (lit "ClientGoodbye")
  | .ClientRename n => keyVal "ClientRename" (serStr n)
  | .ClientKick who => keyVal "ClientKick" (natToDec who)
  | .ClientRequestIDs => serStr (lit "ClientRequestIDs")
  | .ServerText a b => keyVal "ServerText" (0x5B :: serStr a ++ 0x2C :: serStr b ++ [0x5D])
  | .ServerShutdown => serStr (lit "ServerShutdown")
  | .ServerNotifyKick => serStr (lit "ServerNotifyKick")
  | .ServerResponseIDs ps => keyVal "ServerResponseIDs" (serRespList ps)

/-- Byte payload of one frame for message `m`: the UTF-8 bytes of its JSON
text (`serde_json::to_string(data)?.into_bytes()` in `TcpConn::send`). -/
def payloadBytes (m : Message) : List Nat := utf8Encode (encodeMessage m)

/-! ## Model of `serde_json::from_str::<Message>` -/

/-- Value of a hexadecimal digit scalar (both cases accepted). -/
def hexVal (c : Nat) : Option Nat :=
  if 0x30 ≤ c ∧ c ≤ 0x39 then some (c - 0x30)
  else if 0x61 ≤ c ∧ c ≤ 0x66 then some (c - 0x57)
  else if 0x41 ≤ c ∧ c ≤ 0x46 then some (c - 0x37)
  else none

/-- Prepend a scalar to the content component of a string-parse result. -/
def consFst (c : Nat) (r : Option (List Nat × List Nat)) : Option (List Nat × List Nat) :=
  r.map (fun p => (c :: p.1, p.2))

/-- Unescaped scalar of a single-character escape sequence (`\"` `\\` `\/`
`\b` `\t` `\n` `\f` `\r`). -/
def escCode (e : Nat) : Option Nat :=
  if e = 0x22 then some 0x22
  else if e = 0x5C then some 0x5C
  else if e = 0x2F then some 0x2F
  else if e = 0x62 then some 0x08
  else if e = 0x74 then some 0x09
  else if e = 0x6E then some 0x0A
  else if e = 0x66 then some 0x0C
  else if e = 0x72 then some 0x0D
  else none

/-- Read the four hex digits of a `\uXXXX` escape. -/
def getHex4 : List Nat → Option (Nat × List Nat)
  | h1 :: h2 :: h3 :: h4 :: rest =>
    match hexVal h1, hexVal h2, hexVal h3, hexVal h4 with
    | some d1, some d2, some d3, some d4 =>
      some (((d1 * 16 + d2) * 16 + d3) * 16 + d4, rest)
    | _, _, _, _ => none
  | _ => none

/-- Worker for `parseStrBody`; the fuel only bounds the recursion depth and
any fuel at least the input length works (every step consumes input). -/
def parseStrBodyAux : Nat → List Nat → Option (List Nat × List Nat)
  | _, [] => none
  | 0, _ :: _ => none
  | fuel + 1, c :: rest =>
    if c = 0x22 then some ([], rest)
    else if c = 0x5C then
      match rest with
      | [] => none
      | e :: rest2 =>
        if e = 0x75 then
          match getHex4 rest2 with
          | some p => consFst p.1 (parseStrBodyAux fuel p.2)
          | none => none
        else
          match escCode e with
          | some v => consFst v (parseStrBodyAux fuel rest2)
          | none => none
    else if c < 0x20 then none
    else consFst c (parseStrBodyAux fuel rest)

/-- Parse the body of a JSON string up to and including the closing quote,
undoing the `escapeChar` table; raw control characters are rejected.
Returns the decoded content and the remaining input. -/
def parseStrBody (bs : List Nat) : Option (List Nat × List Nat) :=
  parseStrBodyAux bs.length bs

/-- Parse a complete JSON string including its opening quote. -/
def parseQStr : List Nat → Option (List Nat × List Nat)
  | [] => none
  | c :: rest => if c = 0x22 then parseStrBody rest else none

/-- Split off the leading run of decimal digit scalars, as digit values. -/
def takeDigits : List Nat → List Nat × List Nat
  | [] => ([], [])
  | c :: rest =>
    if 0x30 ≤ c ∧ c ≤ 0x39 then
      let p := takeDigits rest
      ((c - 0x30) :: p.1, p.2)
    else ([], c :: rest)

/-- Parse a `u64` decimal literal (value must fit in 64 bits). -/
def parseU64 (s : List Nat) : Option (Nat × List Nat) :=
  let p := takeDigits s
  if p.1 = [] then none
  else
    let n := p.1.foldl (fun a d => a * 10 + d) 0
    if n < 2 ^ 64 then some (n, p.2) else none

/-- Consume one expected scalar from the front of the input. -/
def expectScalar (t : Nat) : List Nat → Option (List Nat)
  | [] => none
  | c :: rest => if c = t then some rest else none

/-- Parse the pairs of a nonempty `[["name",id],...]` roster body, starting
just after the opening `[` of the outer array and consuming its closing `]`.
The fuel argument bounds the number of pairs; callers pass the input length. -/
def parsePairs : Nat → List Nat → Option (List (List Nat × Nat) × List Nat)
  | 0, _ => none
  | fuel + 1, s =>
    match expectScalar 0x5B s with
    | none => none
    | some r1 =>
      match parseQStr r1 with
      | none => none
      | some pn =>
        match expectScalar 0x2C pn.2 with
        | none => none
        | some r3 =>
          match parseU64 r3 with
          | none => none
          | some pv =>
            match expectScalar 0x5D pv.2 with
            | none => none
            | some r5 =>
              match expectScalar 0x2C r5 with
              | some r6 => (parsePairs fuel r6).map (fun p => ((pn.1, pv.1) :: p.1, p.2))
              | none =>
                match expectScalar 0x5D r5 with
                | some r6 => some ([(pn.1, pv.1)], r6)
                | none => none

/-- Map the content of a bare JSON string to the matching unit variant. -/
def unitVariant (name : List Nat) : Option Message :=
  if name = lit "ClientGoodbye" then some .ClientGoodbye
  else if name = lit "ClientRequestIDs" then some .ClientRequestIDs
  else if name = lit "ServerShutdown" then some .ServerShutdown
  else if name = lit "ServerNotifyKick" then some .ServerNotifyKick
  else none

/-- Succeed with `m` when the remaining input is exactly the closing `}`. -/
def endObj (r : List Nat) (m : Message) : Option Message :=
  if r = [0x7D] then some m else none

/-- Parse a single-string newtype payload followed by the closing brace. -/
def parseStrArg (mk : List Nat → Message) (r : List Nat) : Option Message :=
  match parseQStr r with
  | some p => endObj p.2 (mk p.1)
  | none => none

/-- Parse the two-string tuple payload of `ServerText`. -/
def parseTextPair (r : List Nat) : Option Message :=
  match expectScalar 0x5B r with
  | none => none
  | some r1 =>
    match parseQStr r1 with
    | none => none
    | some pa =>
      match expectScalar 0x2C pa.2 with
      | none => none
      | some r2 =>
        match parseQStr r2 with
        | none => none
        | some pb =>
          match expectScalar 0x5D pb.2 with
          | none => none
          | some r3 => endObj r3 (.ServerText pa.1 pb.1)

/-- Parse the roster-array payload of `ServerResponseIDs`. -/
def parseRespArg (r : List Nat) : Option Message :=
  match expectScalar 0x5B r with
  | none => none
  | some r1 =>
    match expectScalar 0x5D r1 with
    | some r2 => endObj r2 (.ServerResponseIDs [])
    | none =>
      match parsePairs r1.length r1 with
      | some p => endObj p.2 (.ServerResponseIDs p.1)
      | none => none

/-- Parse the JSON text of a `Message` value (model of
`serde_json::from_str::<Message>`, restricted to the canonical compact form
the serializer emits; the whole input must be consumed). -/
def parseMessage (s : List Nat) : Option Message :=
  match s with
  | [] => none
  | c :: rest =>
    if c = 0x22 then
      match parseStrBody rest with
      | some p => if p.2 = [] then unitVariant p.1 else none
      | none => none
    else if c = 0x7B then
      match parseQStr rest with
      | none => none
      | some kp =>
        match expectScalar 0x3A kp.2 with
        | none => none
        | some r2 =>
          if kp.1 = lit "ClientText" then parseStrArg .ClientText r2
          else if kp.1 = lit "ClientHello" then parseStrArg .ClientHello r2
          else if kp.1 = lit "ClientRename" then parseStrArg .ClientRename r2
          else if kp.1 = lit "ClientKick" then
            match parseU64 r2 with
            | some p => endObj p.2 (.ClientKick p.1)
            | none => none
          else if kp.1 = lit "ServerText" then parseTextPair r2
          else if kp.1 = lit "ServerResponseIDs" then parseRespArg r2
          else none
    else none

/-- Payload decoding performed by `TcpConn::receive_partial`: UTF-8 validation
(`std::str::from_utf8`) followed by deserialization (`serde_json::from_str`);
either failure is the `InvalidData` ("Malformed") outcome. -/
def decodePayload (bs : List Nat) : Option Message :=
  (utf8Decode bs).bind parseMessage

/-! ## The framed channel (`tcp_conn.rs`, `TcpConn`) -/

/-- Translation of `const POLL_SIZE: usize = 4096`. -/
def POLL_SIZE : Nat := 4096

/-- Little-endian bytes of `usize::to_le_bytes` (eight bytes, 64-bit target). -/
def u64ToLE (n : Nat) : List Nat :=
  [n % 256, n / 256 % 256, n / 256 ^ 2 % 256, n / 256 ^ 3 % 256,
   n / 256 ^ 4 % 256, n / 256 ^ 5 % 256, n / 256 ^ 6 % 256, n / 256 ^ 7 % 256]

/-- Value of a little-endian byte list (`usize::from_le_bytes` on 8 bytes). -/
def leToNat (bs : List Nat) : Nat := bs.foldr (fun b acc => b + 256 * acc) 0

/-- One frame as written to the wire: 8-byte little-endian length prefix
followed by the payload. -/
def mkFrame (payload : List Nat) : List Nat := u64ToLE payload.length ++ payload

/-- Error kinds `receive` surfaces, by `io::ErrorKind`: `WouldBlock` from a
dry non-blocking read, `Other` for insufficient buffered data ("Incomplete"),
`InvalidData` for a payload that fails to decode ("Malformed"). -/
inductive RecvErr where
  | wouldBlock
  | incomplete
  | malformed
deriving DecidableEq

deriving instance DecidableEq for Except

/-- Model of the poll loop at the top of `receive_partial`: repeatedly `read`
up to `POLL_SIZE` bytes from the stream into the buffer until a short read.
`avail` is what the non-blocking stream currently has ready; a read on a dry
non-blocking stream fails with `WouldBlock`, which the `?` operator
propagates (the bytes already appended stay in the buffer).  Returns the
extended buffer and whether the loop exited normally (`false` = the final
read raised `WouldBlock`). -/
def pollReadAux : Nat → List Nat → List Nat → List Nat × Bool
  | _, buffer, [] => (buffer, false)
  | 0, buffer, _ => (buffer, false)
  | fuel + 1, buffer, avail =>
    let n := min POLL_SIZE avail.length
    if n < POLL_SIZE then (buffer ++ avail.take n, true)
    else pollReadAux fuel (buffer ++ avail.take n) (avail.drop n)

/-- Entry point of the poll loop; the fuel `avail.length + 1` is strictly
more than the number of `POLL_SIZE`-byte reads the loop can perform, so the
fuel case of `pollReadAux` is never reached (see `pollReadLoop_eq`). -/
def pollReadLoop (buffer avail : List Nat) : List Nat × Bool :=
  pollReadAux (avail.length + 1) buffer avail

/-- Frame-extraction part of `receive_partial` (everything after the poll
loop): read the 8-byte size prefix, check the payload is fully buffered,
decode it, and only on success drain the consumed bytes. -/
def extractFrame (buf : List Nat) : List Nat × Except RecvErr Message :=
  if buf.length < 8 then (buf, .error .incomplete)
  else
    let payloadSize := leToNat (buf.take 8)
    if buf.length < payloadSize + 8 then (buf, .error .incomplete)
    else
      match decodePayload ((buf.drop 8).take payloadSize) with
      | none => (buf, .error .malformed)
      | some m => (buf.drop (payloadSize + 8), .ok m)

/-- Translation of `TcpConn::receive_partial` acting on the internal buffer:
poll the stream dry, then try to extract one frame.  Returns the new buffer
contents and the call's result. -/
def receivePartial (buffer avail : List Nat) : List Nat × Except RecvErr Message :=
  let p := pollReadLoop buffer avail
  if p.2 = false then (p.1, .error .wouldBlock) else extractFrame p.1

/-- Translation of `TcpConn::empty_buffer` (`self.buffer.clear()`). -/
def emptyBuffer (_buffer : List Nat) : List Nat := []

/-- Stream actions `TcpConn::send` performs, in order. -/
inductive IOEvent where
  | write (bs : List Nat)
  | flush
deriving DecidableEq

/-- Translation of `TcpConn::send`: serialize, build the length-prefixed
packet, `write_all` it, then `flush`. -/
def send (m : Message) : List IOEvent :=
  let bytes := payloadBytes m
  let packet := u64ToLE bytes.length ++ bytes
  [.write packet, .flush]

/-- Result of the blocking receive loop `TcpConn::receive_full`.  `blocked`
records that the call never returns: a blocking `stream.read` with no bytes
ever arriving suspends forever, so the deadline is never checked. -/
inductive FullResult where
  | msg (m : Message) (buf : List Nat)
  | err (e : RecvErr) (buf : List Nat)
  | timedOut (buf : List Nat)
  | blocked
deriving DecidableEq

/-- Translation of `TcpConn::receive_full` over an abstract delivery trace:
`deliveries` lists, per loop iteration, the byte group the blocking read
returns after waiting; an exhausted trace means the read blocks forever.
`polls` is the number of retries the deadline still allows (the deadline is
checked only after an attempt that returned "incomplete"). -/
def receiveFull (buffer : List Nat) (deliveries : List (List Nat)) (polls : Nat) : FullResult :=
  match deliveries with
  | [] => .blocked
  | avail :: rest =>
    match receivePartial buffer avail with
    | (buf, .ok m) => .msg m buf
    | (buf, .error .incomplete) =>
      if polls = 0 then .timedOut buf else receiveFull buf rest (polls - 1)
    | (buf, .error e) => .err e buf

/-- Connection state visible to the blocking-mode bookkeeping: the internal
buffer and the `nonblocking` flag. -/
structure Conn where
  buffer : List Nat
  nonblocking : Bool
deriving DecidableEq

/-- Translation of `TcpConn::set_nonblocking` (the stream-level `fcntl` is
modelled as infallible). -/
def setNonblocking (c : Conn) (nb : Bool) : Conn := { c with nonblocking := nb }

/-- Buffer contents after a `receiveFull` call returns (unchanged if the model
says the call never returns). -/
def FullResult.finalBuffer (r : FullResult) (orig : List Nat) : List Nat :=
  match r with
  | .msg _ buf => buf
  | .err _ buf => buf
  | .timedOut buf => buf
  | .blocked => orig

/-- Translation of `TcpConn::receive_timeout`: force blocking, run the
timed full receive, restore the saved `nonblocking` flag, return the result. -/
def receiveTimeout (c : Conn) (deliveries : List (List Nat)) (polls : Nat) :
    FullResult × Conn :=
  let old := c.nonblocking
  let c1 := setNonblocking c false
  let r := receiveFull c1.buffer deliveries polls
  let c2 : Conn := { c1 with buffer := r.finalBuffer c1.buffer }
  (r, setNonblocking c2 old)

/-- Sequence of `receivePartial` calls, one delivered chunk per call (the
server's poll loop makes one such call per connection per tick).  Returns the
per-call results in order and the final buffer. -/
def runCalls : List Nat → List (List Nat) → List (Except RecvErr Message) × List Nat
  | buf, [] => ([], buf)
  | buf, c :: cs =>
    let p := receivePartial buf c
    let q := runCalls p.1 cs
    (p.2 :: q.1, q.2)

/-! ## The room server (`server.rs`) -/

/-- The two registry structures of `server.rs`: `Clients` is the vector of
connected clients in registration order (modelled by their ids; each entry
owns its `TcpConn`), `names` models the `HashMap<u64, String>` of display
names as an association list. -/
structure SrvState where
  clients : List Nat
  names : List (Nat × List Nat)
deriving DecidableEq

/-- Lookup in the id-to-name map (`HashMap::get`). -/
def hmGet (k : Nat) (m : List (Nat × List Nat)) : Option (List Nat) :=
  (m.find? (fun p => p.1 == k)).map Prod.snd

/-- Insert in the id-to-name map (`HashMap::insert`): overwrite if present. -/
def hmInsert (k : Nat) (v : List Nat) (m : List (Nat × List Nat)) : List (Nat × List Nat) :=
  if m.any (fun p => p.1 == k) then m.map (fun p => if p.1 == k then (k, v) else p)
  else m ++ [(k, v)]

/-- Removal from the id-to-name map (`HashMap::remove`): the removed value,
if any, and the remaining map. -/
def hmRemove (k : Nat) (m : List (Nat × List Nat)) :
    Option (List Nat) × List (Nat × List Nat) :=
  (hmGet k m, m.filter (fun p => p.1 != k))

/-- Key set of the id-to-name map, as a list. -/
def hmKeys (m : List (Nat × List Nat)) : List Nat := m.map Prod.fst

/-- Outcome of one dispatcher step: the registry afterwards, the messages
sent (recipient id paired with the message, in send order), whether the
process exits (`exit(0)` in the `ServerShutdown` arm), and whether the arm
never returns (`stuck`): the `ClientKick` arm re-acquires the non-reentrant
`clients` mutex while the guard obtained for its `match` scrutinee is still
alive, which the standard library documents as never returning (panic or
deadlock), so the rest of that arm is unreachable.  When `stuck` is set,
`st` and `sends` are the registry and the sends at the moment the arm
wedges. -/
structure HOut where
  st : SrvState
  sends : List (Nat × Message)
  shutdown : Bool
  stuck : Bool
deriving DecidableEq

/-- Translation of `server_distribute_message`: send `msg` to every client
in the vector whose id is not excluded. -/
def serverDistributeMessage (clients : List Nat) (msg : Message) (exclude : List Nat) :
    List (Nat × Message) :=
  clients.filterMap (fun i => if exclude.contains i then none else some (i, msg))

/-- Translation of `server_handle_message`, the dispatcher's per-message
state machine.  In the `ClientKick` arm the source matches on
`clients.lock().unwrap().iter_mut().find(..)`: the scrutinee's `MutexGuard`
temporary lives for the whole `match`, and the found `kickee` borrows from
it, so after sending `ServerNotifyKick` through that borrow the arm calls
`clients.lock()` again on the same non-reentrant mutex from the same thread
— that call never returns (the standard library leaves it as panic or
deadlock).  The `retain`, the `client_names.remove(sender)` and the "was
kicked" broadcast written after it are therefore unreachable; the model
records the sends performed up to that point and sets `stuck`. -/
def serverHandleMessage (msg : Message) (sender : Nat) (st : SrvState) : HOut :=
  match msg with
  | .ServerShutdown =>
    { st := st
      sends := serverDistributeMessage st.clients .ServerShutdown []
      shutdown := true
      stuck := false }
  | .ClientText text =>
    match hmGet sender st.names with
    | some name =>
      { st := st
        sends := serverDistributeMessage st.clients (.ServerText name text) [sender]
        shutdown := false
        stuck := false }
    | none => { st := st, sends := [], shutdown := false, stuck := false }
  | .ClientGoodbye =>
    let clients' := st.clients.filter (fun i => i != sender)
    let r := hmRemove sender st.names
    match r.1 with
    | some name =>
      { st := { clients := clients', names := r.2 }
        sends := serverDistributeMessage clients'
          (.ServerText (lit "[server]") (name ++ lit " has left the room")) []
        shutdown := false
        stuck := false }
    | none =>
      { st := { clients := clients', names := r.2 }, sends := [], shutdown := false
        stuck := false }
  | .ClientRename newName =>
    { st := { st with names := hmInsert sender newName st.names }
      sends := []
      shutdown := false
      stuck := false }
  | .ClientKick who =>
    if who = 0 then { st := st, sends := [], shutdown := false, stuck := false }
    else if st.clients.contains who then
      { st := st
        sends := [(who, .ServerNotifyKick)]
        shutdown := false
        stuck := true }
    else { st := st, sends := [], shutdown := false, stuck := false }
  | .ClientRequestIDs =>
    if st.clients.contains sender then
      { st := st
        sends := [(sender, .ServerResponseIDs (st.names.map (fun p => (p.2, p.1))))]
        shutdown := false
        stuck := false }
    else { st := st, sends := [], shutdown := false, stuck := false }
  | _ => { st := st, sends := [], shutdown := false, stuck := false }

/-- Registry effect of the acceptor registering a client after a successful
`ClientHello` handshake (`server_accept_connections`): push the connection,
record the name under the fresh id, bump the id counter. -/
def acceptClient (name : List Nat) (nextId : Nat) (st : SrvState) : SrvState × Nat :=
  ({ clients := st.clients ++ [nextId], names := hmInsert nextId name st.names }, nextId + 1)

/-! ## Statement-level auxiliary definitions -/

/-- Input whose head is not a decimal digit scalar (how every serialized
number in a frame is terminated: by `]` or `\x7d`). -/
def headNotDigit : List Nat → Prop
  | [] => True
  | c :: _ => ¬(0x30 ≤ c ∧ c ≤ 0x39)

/-- Key-set agreement of the two registry structures: the ids in the
connection vector are exactly the keys of the id-to-name map (stated as two
bounded inclusions, so it is decidable on concrete states). -/
abbrev keySetEq (st : SrvState) : Prop :=
  (∀ i ∈ st.clients, i ∈ hmKeys st.names) ∧ ∀ i ∈ hmKeys st.names, i ∈ st.clients

/-- Registry after the acceptor admits "alice" (id 0) and then "bob" (id 1):
the state of the worked scenario in the specification. -/
def twoClients : SrvState :=
  (acceptClient (lit "bob")
    ((acceptClient (lit "alice") 0 ⟨[], []⟩).2) (acceptClient (lit "alice") 0 ⟨[], []⟩).1).1

/-- Dispatcher outcome of the host (id 0) kicking id 1 in `twoClients`. -/
def kickOut : HOut := serverHandleMessage (.ClientKick 1) 0 twoClients

/-- Message whose frame is exactly `POLL_SIZE` bytes long (the JSON text of
`ClientText` of 4071 letters `a` is 4088 bytes, plus the 8-byte prefix). -/
def pollSizedMsg : Message := .ClientText (List.replicate 4071 97)

/-- Frame of `pollSizedMsg`: 4096 bytes. -/
def pollSizedFrame : List Nat := mkFrame (payloadBytes pollSizedMsg)

/-! ## Closed form of the poll loop -/

theorem pollReadAux_eq :
    ∀ (fuel : Nat) (buffer avail : List Nat), avail.length < fuel →
      pollReadAux fuel buffer avail = (buffer ++ avail, avail.length % POLL_SIZE != 0) := by
  intro fuel
  induction fuel with
  | zero => intro buffer avail h; omega
  | succ fuel ih =>
    intro buffer avail h
    match avail with
    | [] => simp [pollReadAux]
    | a :: as =>
      rw [pollReadAux]
      by_cases hlt : (a :: as).length < POLL_SIZE
      · have hmin : min POLL_SIZE (a :: as).length = (a :: as).length := by omega
        rw [if_pos (by omega), hmin, List.take_length, Nat.mod_eq_of_lt hlt]
        simp
      · have hmin : min POLL_SIZE (a :: as).length = POLL_SIZE := by omega
        rw [if_neg (by omega)]
        rw [hmin]
        rw [ih (buffer ++ (a :: as).take POLL_SIZE) ((a :: as).drop POLL_SIZE)
          (by simp only [List.length_drop]; simp only [POLL_SIZE] at *; omega)]
        rw [List.append_assoc, List.take_append_drop]
        have hmod : ((a :: as).drop POLL_SIZE).length % POLL_SIZE
            = (a :: as).length % POLL_SIZE := by
          simp only [List.length_drop]
          simp only [POLL_SIZE] at *
          omega
        rw [hmod]
      · simp

theorem pollReadLoop_eq (buffer avail : List Nat) :
    pollReadLoop buffer avail = (buffer ++ avail, avail.length % POLL_SIZE != 0) :=
  pollReadAux_eq _ _ _ (Nat.lt_succ_self _)

theorem receivePartial_eq (buffer avail : List Nat) :
    receivePartial buffer avail =
      if avail.length % POLL_SIZE = 0 then (buffer ++ avail, .error .wouldBlock)
      else extractFrame (buffer ++ avail) := by
  unfold receivePartial
  rw [pollReadLoop_eq]
  by_cases h : avail.length % POLL_SIZE = 0 <;> simp [h]

/-! ## Length-prefix arithmetic -/

theorem u64ToLE_length (n : Nat) : (u64ToLE n).length = 8 := rfl

theorem leToNat_u64ToLE (n : Nat) (h : n < 2 ^ 64) : leToNat (u64ToLE n) = n := by
  simp only [u64ToLE, leToNat, List.foldr_cons, List.foldr_nil]
  omega

theorem mkFrame_length (P : List Nat) : (mkFrame P).length = 8 + P.length := by
  simp [mkFrame, u64ToLE_length]

theorem mkFrame_append_take8 (P R : List Nat) :
    ((mkFrame P ++ R).take 8) = u64ToLE P.length := by
  rw [mkFrame, List.append_assoc]
  rw [List.take_append_of_le_length (by rw [u64ToLE_length])]
  rw [← u64ToLE_length P.length, List.take_length]

theorem mkFrame_append_drop8 (P R : List Nat) :
    ((mkFrame P ++ R).drop 8) = P ++ R := by
  rw [mkFrame, List.append_assoc]
  have h := List.drop_left (u64ToLE P.length) (P ++ R)
  rw [u64ToLE_length] at h
  exact h

theorem extractFrame_complete (P R : List Nat) (m : Message)
    (hlen : P.length < 2 ^ 64) (hdec : decodePayload P = some m) :
    extractFrame (mkFrame P ++ R) = (R, .ok m) := by
  have hbuf : (mkFrame P ++ R).length = 8 + P.length + R.length := by
    simp [mkFrame_length]
  unfold extractFrame
  rw [if_neg (by omega)]
  rw [mkFrame_append_take8, leToNat_u64ToLE _ hlen]
  rw [if_neg (by omega)]
  rw [mkFrame_append_drop8]
  rw [List.take_left' rfl, hdec]
  have hdrain : (mkFrame P ++ R).drop (P.length + 8) = R := by
    rw [mkFrame]
    have h := List.drop_left (u64ToLE P.length ++ P) R
    rw [List.length_append, u64ToLE_length, Nat.add_comm] at h
    exact h
  rw [hdrain]

theorem extractFrame_incomplete (P B R : List Nat)
    (hlen : P.length < 2 ^ 64) (hsplit : B ++ R = mkFrame P) (hR : R ≠ []) :
    extractFrame B = (B, .error .incomplete) := by
  have hRlen : 0 < R.length := List.length_pos.mpr hR
  have hlens : B.length + R.length = 8 + P.length := by
    have := congrArg List.length hsplit
    simpa [mkFrame_length] using this
  unfold extractFrame
  by_cases h8 : B.length < 8
  · rw [if_pos h8]
  · rw [if_neg h8]
    have htake : B.take 8 = u64ToLE P.length := by
      have h1 : (B ++ R).take 8 = B.take 8 :=
        List.take_append_of_le_length (by omega)
      rw [hsplit] at h1
      have h2 : (mkFrame P ++ ([] : List Nat)).take 8 = u64ToLE P.length :=
        mkFrame_append_take8 P []
      rw [List.append_nil] at h2
      rw [← h1, h2]
    rw [htake, leToNat_u64ToLE _ hlen]
    rw [if_pos (by omega)]

theorem utf8EncodeChar_decodes (c : Nat) (h : c < 0x110000) :
    ∃ b0 tail, utf8EncodeChar c = b0 :: tail ∧
      ∀ bs, utf8DecodeOne b0 (tail ++ bs) = some (c, bs) := by
  by_cases h1 : c < 0x80
  · refine ⟨c, [], by rw [utf8EncodeChar, if_pos h1], fun bs => ?_⟩
    rw [List.nil_append, utf8DecodeOne, if_pos h1]
  · by_cases h2 : c < 0x800
    · refine ⟨0xC0 + c / 0x40, [0x80 + c % 0x40],
        by rw [utf8EncodeChar, if_neg h1, if_pos h2], fun bs => ?_⟩
      rw [List.cons_append, List.nil_append, utf8DecodeOne]
      rw [if_neg (by omega), if_neg (by omega), if_pos (by omega)]
      rw [getCont, if_pos ⟨by omega, by omega⟩]
      dsimp only
      rw [show (0xC0 + c / 0x40 - 0xC0) * 0x40 + (0x80 + c % 0x40 - 0x80) = c by omega]
    · by_cases h3 : c < 0x10000
      · refine ⟨0xE0 + c / 0x1000, [0x80 + c / 0x40 % 0x40, 0x80 + c % 0x40],
          by rw [utf8EncodeChar, if_neg h1, if_neg h2, if_pos h3], fun bs => ?_⟩
        rw [List.cons_append, List.cons_append, List.nil_append, utf8DecodeOne]
        rw [if_neg (by omega), if_neg (by omega), if_neg (by omega), if_pos (by omega)]
        rw [getCont, if_pos ⟨by omega, by omega⟩]
        dsimp only
        rw [getCont, if_pos ⟨by omega, by omega⟩]
        dsimp only
        rw [show (0xE0 + c / 0x1000 - 0xE0) * 0x1000 +
          (0x80 + c / 0x40 % 0x40 - 0x80) * 0x40 + (0x80 + c % 0x40 - 0x80) = c by omega]
        rw [if_pos (show (0x800 : Nat) ≤ c by omega)]
      · refine ⟨0xF0 + c / 0x40000,
          [0x80 + c / 0x1000 % 0x40, 0x80 + c / 0x40 % 0x40, 0x80 + c % 0x40],
          by rw [utf8EncodeChar, if_neg h1, if_neg h2, if_neg h3], fun bs => ?_⟩
        rw [List.cons_append, List.cons_append, List.cons_append, List.nil_append,
          utf8DecodeOne]
        rw [if_neg (by omega), if_neg (by omega), if_neg (by omega), if_neg (by omega),
          if_pos (by omega)]
        rw [getCont, if_pos ⟨by omega, by omega⟩]
        dsimp only
        rw [getCont, if_pos ⟨by omega, by omega⟩]
        dsimp only
        rw [getCont, if_pos ⟨by omega, by omega⟩]
        dsimp only
        rw [show (0xF0 + c / 0x40000 - 0xF0) * 0x40000 +
          (0x80 + c / 0x1000 % 0x40 - 0x80) * 0x1000 +
          (0x80 + c / 0x40 % 0x40 - 0x80) * 0x40 + (0x80 + c % 0x40 - 0x80) = c by omega]
        rw [if_pos (show (0x10000 : Nat) ≤ c ∧ c < 0x110000 from ⟨by omega, by omega⟩)]

theorem utf8DecodeAux_encode (s : List Nat) :
    ∀ fuel : Nat, (∀ c ∈ s, c < 0x110000) → (utf8Encode s).length ≤ fuel →
      utf8DecodeAux fuel (utf8Encode s) = some s := by
  induction s with
  | nil => intro fuel _ _; simp [utf8Encode, utf8DecodeAux]
  | cons c s ih =>
    intro fuel h hlen
    have hc : c < 0x110000 := h c (by simp)
    obtain ⟨b0, tail, henc, hdec⟩ := utf8EncodeChar_decodes c hc
    have hbytes : utf8Encode (c :: s) = b0 :: (tail ++ utf8Encode s) := by
      show utf8EncodeChar c ++ utf8Encode s = _
      rw [henc, List.cons_append]
    rw [hbytes] at hlen ⊢
    match fuel with
    | 0 => simp at hlen
    | fuel + 1 =>
      rw [utf8DecodeAux, hdec (utf8Encode s)]
      dsimp only
      rw [ih fuel (fun x hx => h x (by simp [hx])) (by simp at hlen; omega)]
      rfl

theorem utf8Decode_encode (s : List Nat) (h : ∀ c ∈ s, c < 0x110000) :
    utf8Decode (utf8Encode s) = some s :=
  utf8DecodeAux_encode s _ h le_rfl

/-! ## JSON string escaping round trip -/

theorem hexVal_hexDigit (d : Nat) (h : d < 16) :
    hexVal (escapeChar.hexDigit d) = some d := by
  unfold hexVal escapeChar.hexDigit
  by_cases h10 : d < 10
  · rw [if_pos h10, if_pos ⟨by omega, by omega⟩]
    exact congrArg some (by omega)
  · rw [if_neg h10, if_neg (by omega), if_pos ⟨by omega, by omega⟩]
    exact congrArg some (by omega)

theorem parseStrBodyAux_quote (fuel : Nat) (rest : List Nat) :
    parseStrBodyAux (fuel + 1) (0x22 :: rest) = some ([], rest) := by
  match rest with
  | [] => rw [parseStrBodyAux.eq_3, if_pos rfl]
  | t :: ts => rw [parseStrBodyAux.eq_4, if_pos rfl]

theorem parseStrBodyAux_esc (fuel e v : Nat) (rest : List Nat)
    (he : escCode e = some v) (hu : e ≠ 0x75) :
    parseStrBodyAux (fuel + 1) (0x5C :: e :: rest) =
      consFst v (parseStrBodyAux fuel rest) := by
  rw [parseStrBodyAux.eq_4, if_neg (by omega), if_pos rfl, if_neg hu, he]

theorem parseStrBodyAux_hex (fuel h1 h2 h3 h4 d1 d2 d3 d4 : Nat) (rest : List Nat)
    (e1 : hexVal h1 = some d1) (e2 : hexVal h2 = some d2)
    (e3 : hexVal h3 = some d3) (e4 : hexVal h4 = some d4) :
    parseStrBodyAux (fuel + 1) (0x5C :: 0x75 :: h1 :: h2 :: h3 :: h4 :: rest) =
      consFst (((d1 * 16 + d2) * 16 + d3) * 16 + d4) (parseStrBodyAux fuel rest) := by
  rw [parseStrBodyAux.eq_4, if_neg (by omega), if_pos rfl, if_pos rfl]
  rw [getHex4, e1, e2, e3, e4]

theorem parseStrBodyAux_plain (fuel c t0 : Nat) (ts : List Nat)
    (h1 : c ≠ 0x22) (h2 : c ≠ 0x5C) (h3 : ¬(c < 0x20)) :
    parseStrBodyAux (fuel + 1) (c :: t0 :: ts) =
      consFst c (parseStrBodyAux fuel (t0 :: ts)) := by
  rw [parseStrBodyAux.eq_4, if_neg h1, if_neg h2, if_neg h3]

theorem parseStrBodyAux_escape (s : List Nat) :
    ∀ (fuel : Nat) (rest : List Nat), s.length < fuel →
      parseStrBodyAux fuel (s.flatMap escapeChar ++ 0x22 :: rest) = some (s, rest) := by
  induction s with
  | nil =>
    intro fuel rest hf
    match fuel with
    | fuel + 1 => simpa using parseStrBodyAux_quote fuel rest
  | cons c s ih =>
    intro fuel rest hf
    match fuel with
    | fuel + 1 =>
      have hih := ih fuel rest (by simpa using Nat.lt_of_succ_lt_succ hf)
      have happ : (c :: s).flatMap escapeChar ++ 0x22 :: rest =
          escapeChar c ++ (s.flatMap escapeChar ++ 0x22 :: rest) := by
        simp [List.flatMap_cons, List.append_assoc]
      rw [happ]
      by_cases hq : c = 0x22
      · subst hq
        rw [show escapeChar 0x22 = [0x5C, 0x22] from rfl]
        rw [List.cons_append, List.cons_append, List.nil_append]
        rw [parseStrBodyAux_esc fuel 0x22 0x22 _ rfl (by omega), hih]
        rfl
      · by_cases hb : c = 0x5C
        · subst hb
          rw [show escapeChar 0x5C = [0x5C, 0x5C] from rfl]
          rw [List.cons_append, List.cons_append, List.nil_append]
          rw [parseStrBodyAux_esc fuel 0x5C 0x5C _ rfl (by omega), hih]
          rfl
        · by_cases h08 : c = 0x08
          · subst h08
            rw [show escapeChar 0x08 = [0x5C, 0x62] from rfl]
            rw [List.cons_append, List.cons_append, List.nil_append]
            rw [parseStrBodyAux_esc fuel 0x62 0x08 _ rfl (by omega), hih]
            rfl
          · by_cases h09 : c = 0x09
            · subst h09
              rw [show escapeChar 0x09 = [0x5C, 0x74] from rfl]
              rw [List.cons_append, List.cons_append, List.nil_append]
              rw [parseStrBodyAux_esc fuel 0x74 0x09 _ rfl (by omega), hih]
              rfl
            · by_cases h0A : c = 0x0A
              · subst h0A
                rw [show escapeChar 0x0A = [0x5C, 0x6E] from rfl]
                rw [List.cons_append, List.cons_append, List.nil_append]
                rw [parseStrBodyAux_esc fuel 0x6E 0x0A _ rfl (by omega), hih]
                rfl
              · by_cases h0C : c = 0x0C
                · subst h0C
                  rw [show escapeChar 0x0C = [0x5C, 0x66] from rfl]
                  rw [List.cons_append, List.cons_append, List.nil_append]
                  rw [parseStrBodyAux_esc fuel 0x66 0x0C _ rfl (by omega), hih]
                  rfl
                · by_cases h0D : c = 0x0D
                  · subst h0D
                    rw [show escapeChar 0x0D = [0x5C, 0x72] from rfl]
                    rw [List.cons_append, List.cons_append, List.nil_append]
                    rw [parseStrBodyAux_esc fuel 0x72 0x0D _ rfl (by omega), hih]
                    rfl
                  · by_cases hctl : c < 0x20
                    · have hesc : escapeChar c = [0x5C, 0x75, 0x30, 0x30,
                          escapeChar.hexDigit (c / 16), escapeChar.hexDigit (c % 16)] := by
                        rw [escapeChar, if_neg hq, if_neg hb, if_neg h08, if_neg h09,
                          if_neg h0A, if_neg h0C, if_neg h0D, if_pos hctl]
                      rw [hesc]
                      simp only [List.cons_append, List.nil_append]
                      rw [parseStrBodyAux_hex fuel 0x30 0x30 (escapeChar.hexDigit (c / 16))
                        (escapeChar.hexDigit (c % 16)) 0 0 (c / 16) (c % 16) _
                        (by decide) (by decide) (hexVal_hexDigit _ (by omega))
                        (hexVal_hexDigit _ (by omega)), hih]
                      simp only [consFst, Option.map_some]
                      rw [show ((0 * 16 + 0) * 16 + c / 16) * 16 + c % 16 = c by omega]
                      rfl
                    · have hesc : escapeChar c = [c] := by
                        rw [escapeChar, if_neg hq, if_neg hb, if_neg h08, if_neg h09,
                          if_neg h0A, if_neg h0C, if_neg h0D, if_neg hctl]
                      rw [hesc]
                      rw [List.cons_append, List.nil_append]
                      match hsh : s.flatMap escapeChar ++ 0x22 :: rest with
                      | [] => simp at hsh
                      | t0 :: ts =>
                        rw [parseStrBodyAux_plain fuel c t0 ts hq hb hctl]
                        rw [← hsh, hih]
                        rfl

theorem parseStrBody_escape (s rest : List Nat) :
    parseStrBody (s.flatMap escapeChar ++ 0x22 :: rest) = some (s, rest) := by
  apply parseStrBodyAux_escape
  have h1 : s.length ≤ (s.flatMap escapeChar).length := by
    induction s with
    | nil => simp
    | cons c s ih =>
      simp only [List.flatMap_cons, List.length_append, List.length_cons]
      have : 1 ≤ (escapeChar c).length := by
        rw [escapeChar]
        repeat' split
        all_goals simp
      omega
  simp only [List.length_append, List.length_cons]
  omega

theorem parseQStr_serStr (s rest : List Nat) :
    parseQStr (serStr s ++ rest) = some (s, rest) := by
  have h : serStr s ++ rest = 0x22 :: (s.flatMap escapeChar ++ 0x22 :: rest) := by
    simp [serStr, List.cons_append, List.append_assoc]
  rw [h, parseQStr, if_pos rfl]
  exact parseStrBody_escape s rest

/-! ## Decimal printing round trip -/

theorem natToDecAux_eq :
    ∀ (fuel n : Nat) (acc : List Nat), n ≤ fuel →
      natToDecAux fuel n acc = ((Nat.digits 10 n).map (· + 0x30)).reverse ++ acc := by
  intro fuel
  induction fuel with
  | zero =>
    intro n acc h
    have : n = 0 := by omega
    subst this
    simp [natToDecAux]
  | succ fuel ih =>
    intro n acc h
    by_cases h0 : n = 0
    · subst h0
      simp [natToDecAux]
    · rw [natToDecAux, if_neg h0]
      have hdiv : n / 10 < n := Nat.div_lt_self (by omega) (by omega)
      rw [ih (n / 10) _ (by omega)]
      rw [Nat.digits_def' (by omega : 1 < 10) (by omega : 0 < n)]
      simp [List.append_assoc, Nat.add_comm]

theorem natToDec_eq (n : Nat) (h0 : n ≠ 0) :
    natToDec n = ((Nat.digits 10 n).map (· + 0x30)).reverse := by
  rw [natToDec, if_neg h0, natToDecAux_eq n n [] le_rfl, List.append_nil]

theorem takeDigits_split :
    ∀ (ds rest : List Nat), (∀ d ∈ ds, 0x30 ≤ d ∧ d ≤ 0x39) → headNotDigit rest →
      takeDigits (ds ++ rest) = (ds.map (· - 0x30), rest) := by
  intro ds
  induction ds with
  | nil =>
    intro rest _ hrest
    match rest with
    | [] => rfl
    | c :: r =>
      rw [List.nil_append, takeDigits, if_neg hrest]
      rfl
  | cons d ds ih =>
    intro rest hds hrest
    rw [List.cons_append, takeDigits, if_pos (hds d (by simp))]
    rw [ih rest (fun x hx => hds x (by simp [hx])) hrest]
    rfl

theorem foldl_base10_reverse :
    ∀ (L : List Nat) (a : Nat),
      L.reverse.foldl (fun x d => x * 10 + d) a = a * 10 ^ L.length + Nat.ofDigits 10 L := by
  intro L
  induction L with
  | nil => intro a; simp [Nat.ofDigits]
  | cons d L ih =>
    intro a
    rw [List.reverse_cons, List.foldl_append, ih a]
    simp only [List.foldl_cons, List.foldl_nil, List.length_cons, Nat.ofDigits_cons]
    ring

theorem map_sub_add_cancel (L : List Nat) :
    (L.map (· + 0x30)).map (· - 0x30) = L := by
  induction L with
  | nil => rfl
  | cons d L ih => simp [ih]

theorem parseU64_natToDec (n : Nat) (hn : n < 2 ^ 64) (rest : List Nat)
    (hrest : headNotDigit rest) :
    parseU64 (natToDec n ++ rest) = some (n, rest) := by
  by_cases h0 : n = 0
  · subst h0
    rw [show natToDec 0 = [0x30] from rfl]
    unfold parseU64
    rw [takeDigits_split [0x30] rest (by intro d hd; simp at hd; omega) hrest]
    norm_num
  · rw [natToDec_eq n h0]
    unfold parseU64
    have hmem : ∀ d ∈ ((Nat.digits 10 n).map (· + 0x30)).reverse, 0x30 ≤ d ∧ d ≤ 0x39 := by
      intro d hd
      rw [List.mem_reverse] at hd
      obtain ⟨x, hx, rfl⟩ := List.mem_map.mp hd
      have := Nat.digits_lt_base (by omega) hx
      omega
    rw [takeDigits_split _ rest hmem hrest]
    dsimp only
    rw [List.map_reverse, map_sub_add_cancel]
    have hne : (Nat.digits 10 n).reverse ≠ [] := by
      simp [Nat.digits_ne_nil_iff_ne_zero, h0]
    rw [if_neg hne]
    rw [foldl_base10_reverse]
    simp only [Nat.zero_mul, Nat.zero_add, Nat.ofDigits_digits]
    rw [if_pos hn]

/-! ## Message serialization round trip -/

theorem expectScalar_hit (t : Nat) (r : List Nat) : expectScalar t (t :: r) = some r := by
  rw [expectScalar, if_pos rfl]

theorem expectScalar_miss (t c : Nat) (h : c ≠ t) (r : List Nat) :
    expectScalar t (c :: r) = none := by
  rw [expectScalar, if_neg h]

theorem serPair_shape (p : List Nat × Nat) (X : List Nat) :
    serPair p ++ X =
      0x5B :: (serStr p.1 ++ (0x2C :: (natToDec p.2 ++ (0x5D :: X)))) := by
  simp [serPair, List.cons_append, List.append_assoc]

theorem serPairsTail_length (ps : List (List Nat × Nat)) :
    ps.length ≤ (serPairsTail ps).length := by
  induction ps with
  | nil => simp
  | cons p ps ih =>
    match ps with
    | [] => simp [serPairsTail, serPair]
    | q :: qs =>
      rw [serPairsTail]
      · simp only [List.length_append, List.length_cons]
        have h1 : 1 ≤ (serPair p).length := by simp [serPair]
        have h2 := ih
        simp only [List.length_cons] at h2 ⊢
        omega
      · simp

theorem parsePairs_serPairsTail (ps : List (List Nat × Nat)) :
    ∀ (fuel : Nat) (rest : List Nat), ps ≠ [] → ps.length ≤ fuel →
      (∀ q ∈ ps, q.2 < 2 ^ 64) →
      parsePairs fuel (serPairsTail ps ++ rest) = some (ps, rest) := by
  induction ps with
  | nil => intro fuel rest h; exact absurd rfl h
  | cons p ps ih =>
    intro fuel rest _ hfuel hids
    obtain ⟨a, b⟩ := p
    have hb : b < 2 ^ 64 := hids (a, b) (by simp)
    match fuel with
    | fuel + 1 =>
      match ps with
      | [] =>
        rw [serPairsTail]
        rw [List.append_assoc, serPair_shape]
        rw [parsePairs, expectScalar_hit]
        dsimp only
        rw [parseQStr_serStr]
        dsimp only
        rw [expectScalar_hit]
        dsimp only
        rw [List.singleton_append, parseU64_natToDec b hb _ (by simp [headNotDigit])]
        dsimp only
        rw [expectScalar_hit]
        dsimp only
        rw [expectScalar_miss 0x2C 0x5D (by omega)]
        rw [expectScalar_hit]
      | q :: qs =>
        rw [serPairsTail]
        rw [List.append_assoc, serPair_shape]
        rw [parsePairs, expectScalar_hit]
        dsimp only
        rw [parseQStr_serStr]
        dsimp only
        rw [expectScalar_hit]
        dsimp only
        rw [List.cons_append, parseU64_natToDec b hb _ (by simp [headNotDigit])]
        dsimp only
        rw [expectScalar_hit]
        dsimp only
        rw [expectScalar_hit]
        dsimp only
        rw [ih fuel rest (by simp) (by simp at hfuel ⊢; omega)
          (fun x hx => hids x (by simp [hx]))]
        rfl
        simp

theorem serPairsTail_cons (p : List Nat × Nat) (ps : List (List Nat × Nat)) :
    ∃ Y, serPairsTail (p :: ps) = 0x5B :: Y := by
  match ps with
  | [] =>
    refine ⟨serStr p.1 ++ (0x2C :: (natToDec p.2 ++ (0x5D :: [0x5D]))), ?_⟩
    rw [serPairsTail, serPair_shape]
  | q :: qs =>
    refine ⟨serStr p.1 ++ (0x2C :: (natToDec p.2 ++
      (0x5D :: (0x2C :: serPairsTail (q :: qs))))), ?_⟩
    rw [serPairsTail, serPair_shape]
    simp

theorem isScalar_lt (c : Nat) (h : isScalar c = true) : c < 0x110000 := by
  simp [isScalar] at h
  omega

theorem strOk_mem (s : List Nat) (h : strOk s = true) :
    ∀ c ∈ s, c < 0x110000 := fun c hc =>
  isScalar_lt c (List.all_eq_true.mp h c hc)

theorem escapeChar_mem_bound (c b : Nat) (hb : b ∈ escapeChar c) : b = c ∨ b < 0x80 := by
  rw [escapeChar] at hb
  split_ifs at hb with h1 h2 h3 h4 h5 h6 h7 h8
  all_goals try (right; simp at hb; omega)
  · right
    simp only [List.mem_cons, List.not_mem_nil, or_false] at hb
    rcases hb with h | h | h | h | h | h
    all_goals subst h
    all_goals try omega
    · rw [escapeChar.hexDigit]
      split_ifs <;> omega
    · rw [escapeChar.hexDigit]
      split_ifs <;> omega
  · left
    simpa using hb

theorem serStr_mem_bound (s : List Nat) (b : Nat) (hb : b ∈ serStr s) :
    b ∈ s ∨ b < 0x80 := by
  rcases List.mem_cons.mp hb with h | h
  · right; omega
  · rcases List.mem_append.mp h with h | h
    · obtain ⟨c, hc, hbc⟩ := List.mem_flatMap.mp h
      rcases escapeChar_mem_bound c b hbc with h' | h'
      · left; rwa [h']
      · right; exact h'
    · right
      have := List.mem_singleton.mp h
      omega

theorem natToDec_mem_bound (n b : Nat) (hb : b ∈ natToDec n) : b < 0x80 := by
  by_cases h0 : n = 0
  · subst h0
    simp [natToDec] at hb
    omega
  · rw [natToDec_eq n h0] at hb
    rw [List.mem_reverse] at hb
    obtain ⟨x, hx, rfl⟩ := List.mem_map.mp hb
    have := Nat.digits_lt_base (by omega) hx
    omega

theorem serPair_mem_bound (p : List Nat × Nat) (b : Nat) (hb : b ∈ serPair p) :
    b ∈ p.1 ∨ b < 0x80 := by
  rcases List.mem_cons.mp hb with h | h
  · right; omega
  · rcases List.mem_append.mp h with h | h
    · rcases List.mem_append.mp h with h | h
      · exact serStr_mem_bound _ _ h
      · rcases List.mem_cons.mp h with h | h
        · right; omega
        · right; exact natToDec_mem_bound _ _ h
    · right
      have := List.mem_singleton.mp h
      omega

theorem serPairsTail_eq_cons (p q : List Nat × Nat) (qs : List (List Nat × Nat)) :
    serPairsTail (p :: q :: qs) = serPair p ++ 0x2C :: serPairsTail (q :: qs) := by
  rw [serPairsTail]
  simp

theorem serPairsTail_mem_bound (ps : List (List Nat × Nat)) (b : Nat) :
    b ∈ serPairsTail ps → (∃ q ∈ ps, b ∈ q.1) ∨ b < 0x80 := by
  induction ps with
  | nil =>
    intro hb
    simp [serPairsTail] at hb
    omega
  | cons p ps ih =>
    intro hb
    match ps with
    | [] =>
      rw [serPairsTail] at hb
      rcases List.mem_append.mp hb with h | h
      · rcases serPair_mem_bound p b h with h' | h'
        · exact Or.inl ⟨p, by simp, h'⟩
        · right; exact h'
      · right
        have := List.mem_singleton.mp h
        omega
    | q :: qs =>
      rw [serPairsTail_eq_cons] at hb
      rcases List.mem_append.mp hb with h | h
      · rcases serPair_mem_bound p b h with h' | h'
        · exact Or.inl ⟨p, by simp, h'⟩
        · right; exact h'
      · rcases List.mem_cons.mp h with h' | h'
        · right; omega
        · rcases ih h' with ⟨r, hr, hbr⟩ | h''
          · exact Or.inl ⟨r, by simp [hr], hbr⟩
          · right; exact h''

theorem serRespList_cons (p : List Nat × Nat) (ps : List (List Nat × Nat)) :
    serRespList (p :: ps) = 0x5B :: serPairsTail (p :: ps) := by
  rw [serRespList]
  simp

theorem keyVal_mem_bound (K : String) (v : List Nat) (b : Nat)
    (hK : ∀ x ∈ lit K, x < 0x80) (hb : b ∈ keyVal K v) : b ∈ v ∨ b < 0x80 := by
  rcases List.mem_cons.mp hb with h | h
  · right; omega
  · rcases List.mem_append.mp h with h | h
    · rcases List.mem_append.mp h with h | h
      · rcases serStr_mem_bound _ _ h with h' | h'
        · right; exact hK b h'
        · right; exact h'
      · rcases List.mem_cons.mp h with h | h
        · right; omega
        · left; exact h
    · right
      have := List.mem_singleton.mp h
      omega

theorem encodeMessage_mem_lt (m : Message) (hwf : m.wf = true) :
    ∀ b ∈ encodeMessage m, b < 0x110000 := by
  cases m with
  | ClientGoodbye => decide
  | ClientRequestIDs => decide
  | ServerShutdown => decide
  | ServerNotifyKick => decide
  | ClientText t =>
    intro b hb
    rcases keyVal_mem_bound "ClientText" (serStr t) b (by decide) hb with h | h
    · rcases serStr_mem_bound _ _ h with h' | h'
      · exact strOk_mem t hwf b h'
      · omega
    · omega
  | ClientHello t =>
    intro b hb
    rcases keyVal_mem_bound "ClientHello" (serStr t) b (by decide) hb with h | h
    · rcases serStr_mem_bound _ _ h with h' | h'
      · exact strOk_mem t hwf b h'
      · omega
    · omega
  | ClientRename t =>
    intro b hb
    rcases keyVal_mem_bound "ClientRename" (serStr t) b (by decide) hb with h | h
    · rcases serStr_mem_bound _ _ h with h' | h'
      · exact strOk_mem t hwf b h'
      · omega
    · omega
  | ClientKick who =>
    intro b hb
    rcases keyVal_mem_bound "ClientKick" (natToDec who) b (by decide) hb with h | h
    · have := natToDec_mem_bound who b h
      omega
    · omega
  | ServerText x y =>
    intro b hb
    have hw : strOk x = true ∧ strOk y = true := by
      have h := hwf
      simp [Message.wf] at h
      exact h
    rcases keyVal_mem_bound "ServerText" _ b (by decide) hb with h | h
    · rcases List.mem_cons.mp h with h | h
      · omega
      · rcases List.mem_append.mp h with h | h
        · rcases List.mem_append.mp h with h | h
          · rcases serStr_mem_bound _ _ h with h' | h'
            · exact strOk_mem x hw.1 b h'
            · omega
          · rcases List.mem_cons.mp h with h | h
            · omega
            · rcases serStr_mem_bound _ _ h with h' | h'
              · exact strOk_mem y hw.2 b h'
              · omega
        · have := List.mem_singleton.mp h
          omega
    · omega
  | ServerResponseIDs ps =>
    intro b hb
    rcases keyVal_mem_bound "ServerResponseIDs" (serRespList ps) b (by decide) hb with h | h
    · match ps with
      | [] =>
        simp [serRespList] at h
        omega
      | p :: ps' =>
        rw [serRespList_cons] at h
        rcases List.mem_cons.mp h with h' | h'
        · omega
        · rcases serPairsTail_mem_bound _ _ h' with ⟨q, hq, hbq⟩ | h''
          · have hq1 : strOk q.1 = true := by
              have hx := List.all_eq_true.mp hwf q hq
              simp at hx
              exact hx.1
            exact strOk_mem q.1 hq1 b hbq
          · omega
    · omega

theorem parseMessage_encodeMessage (m : Message) (hwf : m.wf = true) :
    parseMessage (encodeMessage m) = some m := by
  cases m with
  | ClientGoodbye => decide
  | ClientRequestIDs => decide
  | ServerShutdown => decide
  | ServerNotifyKick => decide
  | ClientText t =>
    have hshape : encodeMessage (.ClientText t) =
        0x7B :: (serStr (lit "ClientText") ++ (0x3A :: (serStr t ++ [0x7D]))) := by
      simp [encodeMessage, keyVal, List.cons_append, List.append_assoc]
    rw [hshape, parseMessage]
    rw [if_neg (by omega), if_pos rfl]
    rw [parseQStr_serStr]
    dsimp only
    rw [expectScalar_hit]
    dsimp only
    rw [if_pos rfl]
    rw [parseStrArg, parseQStr_serStr]
    rfl
  | ClientHello t =>
    have hshape : encodeMessage (.ClientHello t) =
        0x7B :: (serStr (lit "ClientHello") ++ (0x3A :: (serStr t ++ [0x7D]))) := by
      simp [encodeMessage, keyVal, List.cons_append, List.append_assoc]
    rw [hshape, parseMessage]
    rw [if_neg (by omega), if_pos rfl]
    rw [parseQStr_serStr]
    dsimp only
    rw [expectScalar_hit]
    dsimp only
    rw [if_neg (by decide), if_pos rfl]
    rw [parseStrArg, parseQStr_serStr]
    rfl
  | ClientRename t =>
    have hshape : encodeMessage (.ClientRename t) =
        0x7B :: (serStr (lit "ClientRename") ++ (0x3A :: (serStr t ++ [0x7D]))) := by
      simp [encodeMessage, keyVal, List.cons_append, List.append_assoc]
    rw [hshape, parseMessage]
    rw [if_neg (by omega), if_pos rfl]
    rw [parseQStr_serStr]
    dsimp only
    rw [expectScalar_hit]
    dsimp only
    rw [if_neg (by decide), if_neg (by decide), if_pos rfl]
    rw [parseStrArg, parseQStr_serStr]
    rfl
  | ClientKick who =>
    have hwho : who < 2 ^ 64 := by simpa [Message.wf] using hwf
    have hshape : encodeMessage (.ClientKick who) =
        0x7B :: (serStr (lit "ClientKick") ++ (0x3A :: (natToDec who ++ [0x7D]))) := by
      simp [encodeMessage, keyVal, List.cons_append, List.append_assoc]
    rw [hshape, parseMessage]
    rw [if_neg (by omega), if_pos rfl]
    rw [parseQStr_serStr]
    dsimp only
    rw [expectScalar_hit]
    dsimp only
    rw [if_neg (by decide), if_neg (by decide), if_neg (by decide), if_pos rfl]
    rw [parseU64_natToDec who hwho _ (by simp [headNotDigit])]
    rfl
  | ServerText a b =>
    have hshape : encodeMessage (.ServerText a b) =
        0x7B :: (serStr (lit "ServerText") ++ (0x3A :: (0x5B ::
          (serStr a ++ (0x2C :: (serStr b ++ (0x5D :: [0x7D]))))))) := by
      simp [encodeMessage, keyVal, List.cons_append, List.append_assoc]
    rw [hshape, parseMessage]
    rw [if_neg (by omega), if_pos rfl]
    rw [parseQStr_serStr]
    dsimp only
    rw [expectScalar_hit]
    dsimp only
    rw [if_neg (by decide), if_neg (by decide), if_neg (by decide), if_neg (by decide),
      if_pos rfl]
    rw [parseTextPair, expectScalar_hit]
    dsimp only
    rw [parseQStr_serStr]
    dsimp only
    rw [expectScalar_hit]
    dsimp only
    rw [parseQStr_serStr]
    dsimp only
    rw [expectScalar_hit]
    rfl
  | ServerResponseIDs ps =>
    match ps with
    | [] => decide
    | p :: ps =>
      have hidsB : ∀ q ∈ p :: ps, (strOk q.1 && decide (q.2 < 2 ^ 64)) = true :=
        List.all_eq_true.mp hwf
      have hids : ∀ q ∈ p :: ps, q.2 < 2 ^ 64 := by
        intro q hq
        have hq2 := hidsB q hq
        simp at hq2
        exact hq2.2
      obtain ⟨Y, hY⟩ := serPairsTail_cons p ps
      have hshape : encodeMessage (.ServerResponseIDs (p :: ps)) =
          0x7B :: (serStr (lit "ServerResponseIDs") ++ (0x3A ::
            (0x5B :: (serPairsTail (p :: ps) ++ [0x7D])))) := by
        simp [encodeMessage, keyVal, serRespList, List.cons_append, List.append_assoc]
      rw [hshape, parseMessage]
      rw [if_neg (by omega), if_pos rfl]
      rw [parseQStr_serStr]
      dsimp only
      rw [expectScalar_hit]
      dsimp only
      rw [if_neg (by decide), if_neg (by decide), if_neg (by decide), if_neg (by decide),
        if_neg (by decide), if_pos rfl]
      rw [parseRespArg, expectScalar_hit]
      dsimp only
      rw [show serPairsTail (p :: ps) ++ [0x7D] = 0x5B :: (Y ++ [0x7D]) by
        rw [hY, List.cons_append]]
      rw [expectScalar_miss 0x5D 0x5B (by omega)]
      rw [← List.cons_append, ← hY]
      rw [parsePairs_serPairsTail (p :: ps) _ [0x7D] (by simp)
        (by
          have h1 := serPairsTail_length (p :: ps)
          simp only [List.length_append, List.length_cons, List.length_nil] at h1 ⊢
          omega) hids]
      rfl

theorem decodePayload_payloadBytes (m : Message) (hwf : m.wf = true) :
    decodePayload (payloadBytes m) = some m := by
  rw [decodePayload, payloadBytes, utf8Decode_encode _ (encodeMessage_mem_lt m hwf)]
  simpa using parseMessage_encodeMessage m hwf

/-! ## Frame delivery lemmas -/

theorem extractFrame_malformed (P R : List Nat)
    (hlen : P.length < 2 ^ 64) (hdec : decodePayload P = none) :
    extractFrame (mkFrame P ++ R) = (mkFrame P ++ R, .error .malformed) := by
  have hbuf : (mkFrame P ++ R).length = 8 + P.length + R.length := by
    simp [mkFrame_length]
  unfold extractFrame
  rw [if_neg (by omega)]
  rw [mkFrame_append_take8, leToNat_u64ToLE _ hlen]
  rw [if_neg (by omega)]
  rw [mkFrame_append_drop8]
  rw [List.take_left' rfl, hdec]

theorem receivePartial_complete (buffer avail P : List Nat) (m : Message)
    (hjoin : buffer ++ avail = mkFrame P) (hmod : avail.length % POLL_SIZE ≠ 0)
    (hlen : P.length < 2 ^ 64) (hdec : decodePayload P = some m) :
    receivePartial buffer avail = ([], .ok m) := by
  rw [receivePartial_eq, if_neg hmod, hjoin]
  have h := extractFrame_complete P [] m hlen hdec
  rwa [List.append_nil] at h

theorem receivePartial_prefix_incomplete (buffer avail P R : List Nat)
    (hsplit : (buffer ++ avail) ++ R = mkFrame P) (hR : R ≠ [])
    (hmod : avail.length % POLL_SIZE ≠ 0) (hlen : P.length < 2 ^ 64) :
    receivePartial buffer avail = (buffer ++ avail, .error .incomplete) := by
  rw [receivePartial_eq, if_neg hmod]
  rw [extractFrame_incomplete P (buffer ++ avail) R hlen hsplit hR]

theorem runCalls_frame_aux (m : Message) (P : List Nat)
    (hdec : decodePayload P = some m) (hlen : P.length < 2 ^ 64) :
    ∀ (cs : List (List Nat)) (pre : List Nat), cs ≠ [] →
      pre ++ cs.flatten = mkFrame P →
      (∀ c ∈ cs, c.length % POLL_SIZE ≠ 0) →
      runCalls pre cs =
        (List.replicate (cs.length - 1) (Except.error .incomplete) ++ [Except.ok m], []) := by
  intro cs
  induction cs with
  | nil => intro pre h; exact absurd rfl h
  | cons c cs ih =>
    intro pre _ hjoin hmod
    match cs with
    | [] =>
      rw [runCalls]
      have hj : pre ++ c = mkFrame P := by simpa using hjoin
      rw [receivePartial_complete pre c P m hj (hmod c (by simp)) hlen hdec]
      rw [runCalls]
      rfl
    | c2 :: cs2 =>
      have hc2 : c2 ≠ [] := by
        intro hnil
        exact hmod c2 (by simp) (by rw [hnil]; rfl)
      have hflat_ne : (c2 :: cs2).flatten ≠ [] := by
        intro hnil
        rw [List.flatten_cons] at hnil
        exact hc2 (List.append_eq_nil.mp hnil).1
      have hsplit : ((pre ++ c) ++ (c2 :: cs2).flatten) = mkFrame P := by
        rw [List.append_assoc]
        rw [List.flatten_cons] at hjoin
        rwa [← List.append_assoc, List.append_assoc] at hjoin
      rw [runCalls]
      rw [receivePartial_prefix_incomplete pre c P _ hsplit hflat_ne (hmod c (by simp)) hlen]
      dsimp only
      rw [ih (pre ++ c) (by simp) hsplit (fun x hx => hmod x (by simp [hx]))]
      simp [List.replicate_succ]

theorem flatMap_replicate_single (n a : Nat) (f : Nat → List Nat) (h : f a = [a]) :
    (List.replicate n a).flatMap f = List.replicate n a := by
  induction n with
  | zero => rfl
  | succ n ih => simp [List.replicate_succ, h, ih]

theorem pollSizedFrame_length : pollSizedFrame.length = 4096 := by
  have hesc : (List.replicate 4071 97).flatMap escapeChar = List.replicate 4071 97 :=
    flatMap_replicate_single _ _ _ (by decide)
  have hutf : ∀ n : Nat, (List.replicate n 97).flatMap utf8EncodeChar = List.replicate n 97 :=
    fun n => flatMap_replicate_single _ _ _ (by decide)
  rw [pollSizedFrame, mkFrame_length, payloadBytes]
  rw [show encodeMessage pollSizedMsg =
    keyVal "ClientText" (serStr (List.replicate 4071 97)) from rfl]
  rw [keyVal, serStr, serStr, hesc]
  rw [show (lit "ClientText").flatMap escapeChar = lit "ClientText" from by decide]
  rw [utf8Encode]
  simp only [List.cons_append, List.flatMap_cons, List.flatMap_append, List.flatMap_nil,
    hutf]
  rw [show (lit "ClientText").flatMap utf8EncodeChar = lit "ClientText" from by decide]
  simp only [show utf8EncodeChar 0x7B = [0x7B] from by decide,
    show utf8EncodeChar 0x22 = [0x22] from by decide,
    show utf8EncodeChar 0x3A = [0x3A] from by decide,
    show utf8EncodeChar 0x7D = [0x7D] from by decide]
  have hk : (lit "ClientText").length = 10 := by decide
  simp only [List.length_append, List.length_cons, List.length_replicate,
    List.length_nil, hk]

/-! ## Claim theorems -/

/-- C5: framing round trip — for every well-formed `Message` value `m` (the
values the Rust program can construct: strings of Unicode scalars, ids that
fit `u64`), the deserialization applied by `receive` to the payload produced
by `send` yields exactly `m`, for every variant and payload. -/
theorem message_roundtrip (m : Message) (hwf : m.wf = true) :
    decodePayload (payloadBytes m) = some m :=
  decodePayload_payloadBytes m hwf

/-- Witness for `message_roundtrip` at a concrete message. -/
theorem message_roundtrip_witness :
    (Message.ServerText (lit "alice") (lit "hi")).wf = true ∧
    decodePayload (payloadBytes (.ServerText (lit "alice") (lit "hi"))) =
      some (.ServerText (lit "alice") (lit "hi")) :=
  ⟨by decide, message_roundtrip _ (by decide)⟩

/-- C6: `send` writes exactly one frame — the payload length as a fixed-width
8-byte little-endian prefix, followed by the UTF-8 bytes of the message's
JSON text — and flushes the stream afterwards, before returning. -/
theorem send_writes_single_frame (m : Message)
    (h : (payloadBytes m).length < 2 ^ 64) :
    send m = [IOEvent.write (mkFrame (payloadBytes m)), IOEvent.flush] ∧
    (mkFrame (payloadBytes m)).take 8 = u64ToLE (payloadBytes m).length ∧
    ((mkFrame (payloadBytes m)).take 8).length = 8 ∧
    leToNat ((mkFrame (payloadBytes m)).take 8) = (payloadBytes m).length ∧
    (mkFrame (payloadBytes m)).drop 8 = payloadBytes m := by
  have htake : (mkFrame (payloadBytes m)).take 8 = u64ToLE (payloadBytes m).length := by
    have h1 := mkFrame_append_take8 (payloadBytes m) []
    rwa [List.append_nil] at h1
  have hdrop : (mkFrame (payloadBytes m)).drop 8 = payloadBytes m := by
    have h1 := mkFrame_append_drop8 (payloadBytes m) []
    rwa [List.append_nil, List.append_nil] at h1
  refine ⟨rfl, htake, ?_, ?_, hdrop⟩
  · rw [htake, u64ToLE_length]
  · rw [htake, leToNat_u64ToLE _ h]

/-- Witness for `send_writes_single_frame` at a concrete message. -/
theorem send_writes_single_frame_witness :
    (payloadBytes Message.ClientGoodbye).length < 2 ^ 64 ∧
    (send .ClientGoodbye =
      [IOEvent.write (mkFrame (payloadBytes .ClientGoodbye)), IOEvent.flush] ∧
    (mkFrame (payloadBytes Message.ClientGoodbye)).take 8 =
      u64ToLE (payloadBytes Message.ClientGoodbye).length ∧
    ((mkFrame (payloadBytes Message.ClientGoodbye)).take 8).length = 8 ∧
    leToNat ((mkFrame (payloadBytes Message.ClientGoodbye)).take 8) =
      (payloadBytes Message.ClientGoodbye).length ∧
    (mkFrame (payloadBytes Message.ClientGoodbye)).drop 8 =
      payloadBytes Message.ClientGoodbye) :=
  ⟨by decide, send_writes_single_frame .ClientGoodbye (by decide)⟩

/-- C8: evidence that the claim fails on the code — `receive_timeout` puts
the stream in blocking mode, so on a connection that never delivers a byte
the very first `stream.read` suspends forever (`blocked`); the deadline is
only checked between read attempts, hence the call never returns the
`Timeout` error the specification requires for this case. -/
theorem receive_full_silent_blocks (buffer : List Nat) (polls : Nat) :
    receiveFull buffer [] polls = FullResult.blocked ∧
    ∀ buf, FullResult.blocked ≠ FullResult.timedOut buf :=
  ⟨rfl, fun _ h => FullResult.noConfusion h⟩

/-- C10: `receive_timeout` always runs the blocking timed receive and, on
every outcome, leaves the connection's `nonblocking` flag exactly as it was
before the call. -/
theorem receive_timeout_restores_flag (c : Conn) (ds : List (List Nat)) (polls : Nat) :
    ((receiveTimeout c ds polls).2).nonblocking = c.nonblocking ∧
    (receiveTimeout c ds polls).1 = receiveFull c.buffer ds polls :=
  ⟨rfl, rfl⟩

/-- Helper: keys of the id-to-name map after a `HashMap::insert`: unchanged
when the key was present (overwrite), extended by the key otherwise. -/
theorem hmKeys_hmInsert (k : Nat) (v : List Nat) (m : List (Nat × List Nat)) :
    hmKeys (hmInsert k v m) =
      if m.any (fun p => p.1 == k) then hmKeys m else hmKeys m ++ [k] := by
  unfold hmInsert hmKeys
  by_cases h : m.any (fun p => p.1 == k) = true
  · rw [if_pos h, if_pos h, List.map_map]
    apply List.map_congr_left
    intro p _
    show (if p.1 == k then (k, v) else p).1 = p.1
    by_cases hp : (p.1 == k) = true
    · rw [if_pos hp]
      exact (beq_iff_eq.mp hp).symm
    · rw [if_neg hp]
  · rw [if_neg h, if_neg h, List.map_append]
    rfl

/-- Helper: a key reported present by `List.any` is among the map's keys. -/
theorem mem_hmKeys_of_any (k : Nat) (m : List (Nat × List Nat))
    (h : m.any (fun p => p.1 == k) = true) : k ∈ hmKeys m := by
  obtain ⟨p, hp, hpk⟩ := List.any_eq_true.mp h
  have hk : p.1 = k := beq_iff_eq.mp hpk
  exact hk ▸ List.mem_map.mpr ⟨p, hp, rfl⟩

/-- Helper: keys of the id-to-name map after a `HashMap::remove`. -/
theorem hmKeys_filter (k : Nat) (m : List (Nat × List Nat)) :
    hmKeys (m.filter (fun p => p.1 != k)) = (hmKeys m).filter (fun i => i != k) := by
  induction m with
  | nil => rfl
  | cons p m ih =>
    simp only [hmKeys, List.filter_cons, List.map_cons] at *
    by_cases h : (p.1 != k) = true
    · simp only [h, if_pos, List.map_cons, ih]
    · simp only [h, if_neg, ih]
      simp [h, ih]

/-- C1: registry key-set consistency holds on the code — each registry
operation the program actually completes preserves agreement of the two key
sets, so it holds at every state a broadcast can observe: the acceptor's add
inserts the fresh id into both structures, `ClientGoodbye` removes the
sender from both, `ClientRename` overwrites the name of a registered sender,
and `ClientKick` never mutates the registry at all (with a registered
target it wedges on the re-acquired `clients` lock before its `retain`,
`remove` and broadcast, so those lines are unreachable; the real defect
there is a hang, not an inconsistency).  The `sender ∈ clients` hypothesis
reflects that the dispatcher only dequeues messages from registered
connections, one per connection per tick. -/
theorem registry_key_sets_preserved (st : SrvState) (msg : Message)
    (sender nextId : Nat) (name : List Nat)
    (hEq : keySetEq st) (hsender : sender ∈ st.clients) :
    keySetEq (acceptClient name nextId st).1 ∧
    keySetEq (serverHandleMessage msg sender st).st := by
  obtain ⟨h1, h2⟩ := hEq
  constructor
  · unfold acceptClient
    constructor
    · intro i hi
      rw [hmKeys_hmInsert]
      rcases List.mem_append.mp hi with h | h
      · by_cases hany : st.names.any (fun p => p.1 == nextId) = true
        · rw [if_pos hany]; exact h1 i h
        · rw [if_neg hany]; exact List.mem_append.mpr (Or.inl (h1 i h))
      · rw [List.mem_singleton.mp h]
        by_cases hany : st.names.any (fun p => p.1 == nextId) = true
        · rw [if_pos hany]; exact mem_hmKeys_of_any _ _ hany
        · rw [if_neg hany]; exact List.mem_append.mpr (Or.inr (by simp))
    · intro i hi
      rw [hmKeys_hmInsert] at hi
      by_cases hany : st.names.any (fun p => p.1 == nextId) = true
      · rw [if_pos hany] at hi
        exact List.mem_append.mpr (Or.inl (h2 i hi))
      · rw [if_neg hany] at hi
        rcases List.mem_append.mp hi with h | h
        · exact List.mem_append.mpr (Or.inl (h2 i h))
        · exact List.mem_append.mpr (Or.inr h)
  · cases msg with
    | ServerShutdown => exact ⟨h1, h2⟩
    | ClientRequestIDs =>
      by_cases h : st.clients.contains sender = true
      · simp only [serverHandleMessage, if_pos h]
        exact ⟨h1, h2⟩
      · simp only [serverHandleMessage, if_neg h]
        exact ⟨h1, h2⟩
    | ClientText t =>
      rcases h : hmGet sender st.names with _ | nm <;>
        simp only [serverHandleMessage, h] <;> exact ⟨h1, h2⟩
    | ClientHello t => exact ⟨h1, h2⟩
    | ServerText a b => exact ⟨h1, h2⟩
    | ServerNotifyKick => exact ⟨h1, h2⟩
    | ServerResponseIDs ps => exact ⟨h1, h2⟩
    | ClientRename newName =>
      constructor
      · intro i hi
        show i ∈ hmKeys (hmInsert sender newName st.names)
        rw [hmKeys_hmInsert]
        by_cases hany : st.names.any (fun p => p.1 == sender) = true
        · rw [if_pos hany]; exact h1 i hi
        · rw [if_neg hany]; exact List.mem_append.mpr (Or.inl (h1 i hi))
      · intro i hi
        rw [show (serverHandleMessage (.ClientRename newName) sender st).st.names =
          hmInsert sender newName st.names from rfl, hmKeys_hmInsert] at hi
        by_cases hany : st.names.any (fun p => p.1 == sender) = true
        · rw [if_pos hany] at hi
          exact h2 i hi
        · rw [if_neg hany] at hi
          rcases List.mem_append.mp hi with h | h
          · exact h2 i h
          · have hi' : i = sender := List.mem_singleton.mp h
            subst hi'
            exact hsender
    | ClientGoodbye =>
      rcases h : (hmRemove sender st.names).1 with _ | nm
      all_goals simp only [serverHandleMessage, h]
      all_goals constructor
      all_goals intro i hi
      all_goals simp only [hmRemove] at hi ⊢
      all_goals rw [hmKeys_filter] at *
      · rw [List.mem_filter] at hi ⊢
        exact ⟨h1 i hi.1, hi.2⟩
      · rw [List.mem_filter] at hi ⊢
        exact ⟨h2 i hi.1, hi.2⟩
      · rw [List.mem_filter] at hi ⊢
        exact ⟨h1 i hi.1, hi.2⟩
      · rw [List.mem_filter] at hi ⊢
        exact ⟨h2 i hi.1, hi.2⟩
    | ClientKick who =>
      by_cases hw : who = 0
      · simp only [serverHandleMessage, if_pos hw]
        exact ⟨h1, h2⟩
      · by_cases hc : st.clients.contains who = true
        · simp only [serverHandleMessage, if_neg hw, if_pos hc]
          exact ⟨h1, h2⟩
        · simp only [serverHandleMessage, if_neg hw, if_neg hc]
          exact ⟨h1, h2⟩

/-- Witness for `registry_key_sets_preserved`: the two-client registry, a
`ClientGoodbye` from client 1, and a fresh accept of "carol" with id 2. -/
theorem registry_key_sets_preserved_witness :
    (keySetEq twoClients ∧ (1 : Nat) ∈ twoClients.clients) ∧
    (keySetEq (acceptClient (lit "carol") 2 twoClients).1 ∧
      keySetEq (serverHandleMessage .ClientGoodbye 1 twoClients).st) :=
  ⟨⟨by decide, by decide⟩,
    registry_key_sets_preserved twoClients .ClientGoodbye 1 2 (lit "carol")
      (by decide) (by decide)⟩

/-- C2: evidence that the kick contract fails on the code — handling
`ClientKick 1` from the host in the two-client registry sends
`ServerNotifyKick` to the target and then never returns: the arm re-locks
the `clients` mutex (server.rs:159) while the guard from its `match`
scrutinee (server.rs:152) is still alive, so the removal of the target and
the "kicked" broadcast the claim requires never happen — the registry is
left exactly as it was (bob's connection and name entries both survive) and
nothing is broadcast.  (The unreachable continuation would also have removed
the sender's name, `remove(sender)` at server.rs:163, instead of the
target's.) -/
theorem kick_notifies_then_never_returns :
    kickOut.sends = [(1, Message.ServerNotifyKick)] ∧
    kickOut.stuck = true ∧
    kickOut.st = twoClients ∧
    (1 : Nat) ∈ kickOut.st.clients ∧
    hmGet 1 kickOut.st.names = some (lit "bob") ∧
    kickOut.shutdown = false := by
  decide

/-- C3 counterexample: a non-host sender (id 1) sending `ServerShutdown` is
not rejected — the dispatcher broadcasts the shutdown to every client and
sets the shutdown flag (the code calls `exit(0)`).  A non-host `ClientKick`
is not rejected either: it sends `ServerNotifyKick` to the target and then
wedges on the re-acquired `clients` lock.  This falsifies "rejected/logged,
no state change, the server does not shut down". -/
theorem nonhost_shutdown_obeyed_counterexample :
    (1 : Nat) ≠ 0 ∧
    (serverHandleMessage .ServerShutdown 1 twoClients).shutdown = true ∧
    (serverHandleMessage .ServerShutdown 1 twoClients).sends =
      [(0, Message.ServerShutdown), (1, Message.ServerShutdown)] ∧
    (serverHandleMessage (.ClientKick 1) 1 twoClients).sends =
      [(1, Message.ServerNotifyKick)] ∧
    (serverHandleMessage (.ClientKick 1) 1 twoClients).stuck = true := by
  decide

/-- C3 amended: the dispatcher performs no sender-based authorization —
`ServerShutdown` from any sender broadcasts to all clients and shuts the
server down, and `ClientKick` from any sender with a registered target other
than id 0 is processed identically regardless of sender: it sends
`ServerNotifyKick` to the target and then never returns (the arm re-locks
the non-reentrant `clients` mutex under the live scrutinee guard), leaving
the registry unchanged.  Host-exclusivity exists only in the client-side
command parser. -/
theorem host_only_not_sender_checked (sender who : Nat) (st : SrvState)
    (hwho : who ≠ 0) (hmem : st.clients.contains who = true) :
    (serverHandleMessage .ServerShutdown sender st).shutdown = true ∧
    (serverHandleMessage .ServerShutdown sender st).st = st ∧
    (serverHandleMessage .ServerShutdown sender st).sends =
      serverDistributeMessage st.clients .ServerShutdown [] ∧
    (serverHandleMessage (.ClientKick who) sender st).sends =
      [(who, Message.ServerNotifyKick)] ∧
    (serverHandleMessage (.ClientKick who) sender st).stuck = true ∧
    (serverHandleMessage (.ClientKick who) sender st).st = st := by
  refine ⟨rfl, rfl, rfl, ?_, ?_, ?_⟩
  all_goals rw [serverHandleMessage]
  all_goals rw [if_neg hwho, if_pos hmem]

/-- Witness for `host_only_not_sender_checked` at a concrete non-host
sender and registered target. -/
theorem host_only_not_sender_checked_witness :
    ((1 : Nat) ≠ 0 ∧ twoClients.clients.contains 1 = true) ∧
    ((serverHandleMessage .ServerShutdown 1 twoClients).shutdown = true ∧
    (serverHandleMessage .ServerShutdown 1 twoClients).st = twoClients ∧
    (serverHandleMessage .ServerShutdown 1 twoClients).sends =
      serverDistributeMessage twoClients.clients .ServerShutdown [] ∧
    (serverHandleMessage (.ClientKick 1) 1 twoClients).sends =
      [(1, Message.ServerNotifyKick)] ∧
    (serverHandleMessage (.ClientKick 1) 1 twoClients).stuck = true ∧
    (serverHandleMessage (.ClientKick 1) 1 twoClients).st = twoClients) :=
  ⟨⟨by decide, by decide⟩,
    host_only_not_sender_checked 1 1 twoClients (by decide) (by decide)⟩

/-- C9: buffer effect of one `receive_partial` call — on any failure the
buffer is exactly the old buffer plus the newly read bytes (nothing is
removed), and on success exactly the 8-byte prefix plus the declared payload
length is removed from the front, preserving all trailing bytes. -/
theorem receive_buffer_effect (buffer avail buf' : List Nat)
    (r : Except RecvErr Message)
    (h : receivePartial buffer avail = (buf', r)) :
    ((∃ e, r = Except.error e) → buf' = buffer ++ avail) ∧
    (∀ m, r = Except.ok m →
      leToNat ((buffer ++ avail).take 8) + 8 ≤ (buffer ++ avail).length ∧
      buf' = (buffer ++ avail).drop (leToNat ((buffer ++ avail).take 8) + 8) ∧
      (buffer ++ avail).take (leToNat ((buffer ++ avail).take 8) + 8) ++ buf' =
        buffer ++ avail) := by
  rw [receivePartial_eq] at h
  by_cases hmod : avail.length % POLL_SIZE = 0
  · rw [if_pos hmod] at h
    injection h with h1 h2
    subst h1
    subst h2
    exact ⟨fun _ => rfl, fun m hm => Except.noConfusion hm⟩
  · rw [if_neg hmod] at h
    unfold extractFrame at h
    dsimp only at h
    split_ifs at h with h8 hsize
    · injection h with h1 h2
      subst h1
      subst h2
      exact ⟨fun _ => rfl, fun m hm => Except.noConfusion hm⟩
    · injection h with h1 h2
      subst h1
      subst h2
      exact ⟨fun _ => rfl, fun m hm => Except.noConfusion hm⟩
    · rcases hdec : decodePayload (((buffer ++ avail).drop 8).take
          (leToNat ((buffer ++ avail).take 8))) with _ | m0
      · rw [hdec] at h
        injection h with h1 h2
        subst h1
        subst h2
        exact ⟨fun _ => rfl, fun m hm => Except.noConfusion hm⟩
      · rw [hdec] at h
        injection h with h1 h2
        subst h1
        subst h2
        constructor
        · rintro ⟨e, he⟩
          exact absurd he (by simp)
        · intro m hm
          have hm0 : m0 = m := by
            injection hm
          subst hm0
          refine ⟨by omega, by rw [Nat.add_comm], ?_⟩
          rw [Nat.add_comm]
          exact List.take_append_drop _ _

/-- Witness for `receive_buffer_effect` at a successful receive with two
trailing bytes queued behind the frame. -/
theorem receive_buffer_effect_witness :
    receivePartial [] (mkFrame (payloadBytes Message.ClientGoodbye) ++ [7, 7]) =
      ([7, 7], Except.ok Message.ClientGoodbye) ∧
    (leToNat ((([] : List Nat) ++ (mkFrame (payloadBytes Message.ClientGoodbye) ++
        [7, 7])).take 8) + 8 ≤
      (([] : List Nat) ++ (mkFrame (payloadBytes Message.ClientGoodbye) ++
        [7, 7])).length ∧
    [7, 7] = (([] : List Nat) ++ (mkFrame (payloadBytes Message.ClientGoodbye) ++
        [7, 7])).drop
      (leToNat ((([] : List Nat) ++ (mkFrame (payloadBytes Message.ClientGoodbye) ++
        [7, 7])).take 8) + 8) ∧
    (([] : List Nat) ++ (mkFrame (payloadBytes Message.ClientGoodbye) ++
        [7, 7])).take
      (leToNat ((([] : List Nat) ++ (mkFrame (payloadBytes Message.ClientGoodbye) ++
        [7, 7])).take 8) + 8) ++ [7, 7] =
      ([] : List Nat) ++ (mkFrame (payloadBytes Message.ClientGoodbye) ++ [7, 7])) :=
  ⟨by decide,
    (receive_buffer_effect [] (mkFrame (payloadBytes Message.ClientGoodbye) ++ [7, 7])
      [7, 7] (Except.ok Message.ClientGoodbye) (by decide)).2
      Message.ClientGoodbye rfl⟩

/-- C7 counterexample: with a malformed frame and a complete valid frame
both in the buffer, `receive` fails with Malformed and leaves the buffer
intact, but `empty_buffer` then clears the whole buffer — the queued valid
frame's bytes are discarded too, not just the malformed frame's — so a later
receive finds nothing (WouldBlock) instead of decoding the queued frame. -/
theorem empty_buffer_discards_queued_frame_counterexample :
    receivePartial [] (mkFrame [0xFF] ++ mkFrame (payloadBytes Message.ClientGoodbye)) =
      (mkFrame [0xFF] ++ mkFrame (payloadBytes Message.ClientGoodbye),
        Except.error RecvErr.malformed) ∧
    emptyBuffer (mkFrame [0xFF] ++ mkFrame (payloadBytes Message.ClientGoodbye)) = [] ∧
    receivePartial
      (emptyBuffer (mkFrame [0xFF] ++ mkFrame (payloadBytes Message.ClientGoodbye)))
      [] = ([], Except.error RecvErr.wouldBlock) := by
  decide

/-- C7 amended: a malformed frame makes `receive` fail with Malformed and
leaves the buffered bytes in place; the reset operation then discards the
entire buffer — the malformed frame and any bytes queued behind it — and a
valid frame delivered after the reset decodes correctly. -/
theorem malformed_reset_recovery (bp rest : List Nat) (m : Message)
    (hbp : decodePayload bp = none) (hlen : bp.length < 2 ^ 64)
    (hmod1 : (mkFrame bp ++ rest).length % POLL_SIZE ≠ 0)
    (hwf : m.wf = true) (hplen : (payloadBytes m).length < 2 ^ 64)
    (hmod2 : (mkFrame (payloadBytes m)).length % POLL_SIZE ≠ 0) :
    receivePartial [] (mkFrame bp ++ rest) =
      (mkFrame bp ++ rest, Except.error RecvErr.malformed) ∧
    emptyBuffer (mkFrame bp ++ rest) = [] ∧
    receivePartial [] (mkFrame (payloadBytes m)) = ([], Except.ok m) := by
  refine ⟨?_, rfl, ?_⟩
  · rw [receivePartial_eq, if_neg hmod1, List.nil_append]
    exact extractFrame_malformed bp rest hlen hbp
  · exact receivePartial_complete [] _ (payloadBytes m) m (by rw [List.nil_append])
      hmod2 hplen (decodePayload_payloadBytes m hwf)

/-- Witness for `malformed_reset_recovery` with the invalid byte 0xFF as the
malformed payload and a queued `ClientGoodbye` frame behind it. -/
theorem malformed_reset_recovery_witness :
    decodePayload [0xFF] = none ∧
    (receivePartial [] (mkFrame [0xFF] ++ mkFrame (payloadBytes Message.ClientGoodbye)) =
      (mkFrame [0xFF] ++ mkFrame (payloadBytes Message.ClientGoodbye),
        Except.error RecvErr.malformed) ∧
    emptyBuffer (mkFrame [0xFF] ++ mkFrame (payloadBytes Message.ClientGoodbye)) = [] ∧
    receivePartial [] (mkFrame (payloadBytes Message.ClientGoodbye)) =
      ([], Except.ok Message.ClientGoodbye)) :=
  ⟨by decide,
    malformed_reset_recovery [0xFF] (mkFrame (payloadBytes Message.ClientGoodbye))
      Message.ClientGoodbye (by decide) (by decide) (by decide) (by decide) (by decide)
      (by decide)⟩

/-- C4 counterexample: the frame of a message whose encoding is exactly
`POLL_SIZE` (4096) bytes, delivered as a single chunk, is never received —
the poll loop's final read raises WouldBlock, which propagates before the
buffer is examined, and every later call with no new bytes does the same.
So "exactly one successful receive once all chunks have arrived" and "every
call before completion reports Incomplete" both fail. -/
theorem poll_boundary_chunk_counterexample :
    pollSizedFrame.length = 4096 ∧
    runCalls [] [pollSizedFrame] =
      ([Except.error RecvErr.wouldBlock], pollSizedFrame) ∧
    receivePartial pollSizedFrame [] =
      (pollSizedFrame, Except.error RecvErr.wouldBlock) := by
  refine ⟨pollSizedFrame_length, ?_, ?_⟩
  · rw [runCalls]
    rw [receivePartial_eq, if_pos (by rw [pollSizedFrame_length]; decide)]
    rw [List.nil_append]
    rw [runCalls]
  · rw [receivePartial_eq, if_pos (by decide)]
    rw [List.append_nil]

/-- C4 amended: delivering the frame of any well-formed message in nonempty
chunks, one chunk per receive call, where no chunk's size is a multiple of
4096 bytes (`POLL_SIZE`), yields exactly one successful receive returning
the message at the call completing the frame; every earlier call reports the
recoverable Incomplete condition, and the buffer is empty afterwards. -/
theorem receive_chunked_delivery (m : Message) (cs : List (List Nat))
    (hwf : m.wf = true) (hlen : (payloadBytes m).length < 2 ^ 64)
    (hjoin : cs.flatten = mkFrame (payloadBytes m))
    (hmod : ∀ c ∈ cs, c.length % POLL_SIZE ≠ 0) (hne : cs ≠ []) :
    runCalls [] cs =
      (List.replicate (cs.length - 1) (Except.error RecvErr.incomplete) ++
        [Except.ok m], []) :=
  runCalls_frame_aux m (payloadBytes m) (decodePayload_payloadBytes m hwf) hlen cs []
    hne (by rw [List.nil_append]; exact hjoin) hmod

/-- Witness for `receive_chunked_delivery`: a `ClientGoodbye` frame split
into a 10-byte chunk and a 13-byte chunk. -/
theorem receive_chunked_delivery_witness :
    ([(mkFrame (payloadBytes Message.ClientGoodbye)).take 10,
      (mkFrame (payloadBytes Message.ClientGoodbye)).drop 10] :
        List (List Nat)).flatten = mkFrame (payloadBytes Message.ClientGoodbye) ∧
    runCalls [] [(mkFrame (payloadBytes Message.ClientGoodbye)).take 10,
      (mkFrame (payloadBytes Message.ClientGoodbye)).drop 10] =
      (List.replicate 1 (Except.error RecvErr.incomplete) ++
        [Except.ok Message.ClientGoodbye], []) :=
  ⟨by decide,
    receive_chunked_delivery Message.ClientGoodbye
      [(mkFrame (payloadBytes Message.ClientGoodbye)).take 10,
        (mkFrame (payloadBytes Message.ClientGoodbye)).drop 10]
      (by decide) (by decide) (by decide) (by decide) (by decide)⟩

end TcpChat
